import Mathlib

/-!
Verification of the knowledge-graph data layer (server/src/db/adapters/sqlite.py
and server/src/routes/graphs.py) against its specification.

The SQLite tables are modelled as Lean lists kept in rowid (insertion) order:
a `SELECT` without `ORDER BY` is modelled as a scan of that list, `DELETE` as
`List.filter`, `UPDATE ... WHERE k = ?` as a `List.map` that rewrites every
matching row, and `fetchone` as `List.find?`.  The `created_at`/`updated_at`
timestamp columns are opaque strings that no claim observes, so they are
omitted from the model.  SQL `UNIQUE` constraint violations and Python
exceptions are modelled with `Except`.
-/

namespace GraphParser

/-! ## Entity model (server/src/models.py, schema in sqlite.py) -/

/-- Error conditions surfaced by the routes, plus the two Python-level
exceptions the adapter itself can raise (SQL UNIQUE violations and the
`AttributeError` from touching a field of `None`). -/
inductive ErrCode where
  | VALIDATION_ERROR
  | GRAPH_NOT_FOUND
  | COURSE_NOT_FOUND
  | TOPIC_NOT_FOUND
  | EDGE_NOT_FOUND
  | DUPLICATE_ENTRY
  | READONLY_GRAPH
  | CANNOT_DELETE_DEFAULT
  | INTEGRITY_ERROR
  | ATTRIBUTE_ERROR
deriving Repr, DecidableEq

/-- A row of `kg_courses` (scoped to one graph; `graph_id` is carried
separately where several graphs are in play). -/
structure Course where
  courseId : Nat
  name : String
  color : String
deriving Repr, DecidableEq

/-- A row of `kg_topics`.  The `parent_slugs` TEXT column always holds the
`json.dumps` encoding of a list of strings, so it is modelled as that list;
`jsonDumpsList` below recovers the stored text where the code inspects it. -/
structure Topic where
  urlSlug : String
  displayName : String
  courseId : Nat
  parentSlugs : List String
  contentHtml : Option String
  contentText : Option String
  hasContent : Bool
deriving Repr, DecidableEq

/-- A row of `kg_edges`; the autoincrement id is the list position. -/
structure Edge where
  parentSlug : String
  childSlug : String
deriving Repr, DecidableEq

/-- A row of `knowledge_graphs`. -/
structure GraphMeta where
  id : String
  name : String
  description : Option String
  isDefault : Bool
  isReadonly : Bool
  sourceGraphId : Option String
deriving Repr, DecidableEq

/-- The rows of one graph's courses/topics/edges tables, in rowid order. -/
structure GraphState where
  courses : List Course
  topics : List Topic
  edges : List Edge
deriving Repr, DecidableEq

/-- Python truthiness of an `Optional[str]`: `None` and `""` are falsy.
Used for every `if content_html or content_text` in the adapter. -/
def strTruthy : Option String → Bool
  | none => false
  | some s => s ≠ ""

/-! ## json.dumps on lists of strings

`delete_topic` prefilters rows with `parent_slugs LIKE '%"slug"%'`, a
substring test against the stored JSON text, so the encoder is modelled
faithfully: CPython's `json.dumps` with default settings emits
`["a", "b"]` (separator `", "`) and escapes quotes, backslashes, control characters,
and (with `ensure_ascii=True`) everything outside printable ASCII as
`\uXXXX` (lowercase hex; astral characters use surrogate pairs, a detail
immaterial here and not modelled). -/

/-- Lowercase hex digit, as CPython emits in `\uXXXX` escapes. -/
def hexDigit (n : Nat) : Char :=
  if n < 10 then Char.ofNat (48 + n) else Char.ofNat (87 + n)

/-- How `json.dumps` renders one character of a string. -/
def escChar (c : Char) : List Char :=
  if c.toNat = 0x22 then ['\\', '"']
  else if c.toNat = 0x5c then ['\\', '\\']
  else if c.toNat = 0x08 then ['\\', 'b']
  else if c.toNat = 0x0c then ['\\', 'f']
  else if c.toNat = 0x0a then ['\\', 'n']
  else if c.toNat = 0x0d then ['\\', 'r']
  else if c.toNat = 0x09 then ['\\', 't']
  else if 0x20 ≤ c.toNat ∧ c.toNat ≤ 0x7e then [c]
  else ['\\', 'u', hexDigit (c.toNat / 4096 % 16), hexDigit (c.toNat / 256 % 16),
        hexDigit (c.toNat / 16 % 16), hexDigit (c.toNat % 16)]

/-- `json.dumps` of one string, as a character list. -/
def encStr (sl : String) : List Char :=
  '"' :: (sl.data.map escChar).flatten ++ ['"']

/-- The elements of a dumped list joined by `", "`. -/
def dumpsBody : List String → List Char
  | [] => []
  | [x] => encStr x
  | x :: y :: rest => encStr x ++ [',', ' '] ++ dumpsBody (y :: rest)

/-- `json.dumps` of a list of strings, as a character list. -/
def jsonDumpsList (xs : List String) : List Char :=
  '[' :: dumpsBody xs ++ [']']

/-- The SQL test `parent_slugs LIKE '%"slug"%'` on the stored JSON text,
modelled as exact substring containment.  SQLite LIKE additionally folds
ASCII case, which can only make the prefilter select more rows; in the one
contrived corner where that matters — a slug containing both a quote and
the separator text, whose case-variant rendering occurs in the stored
JSON while the exact text does not — the model's prefilter stays silent
where SQLite's fires.  Every theorem below either re-checks real list
membership after the prefilter or restricts slugs to characters where the
two tests agree. -/
def likeContains (slugs : List String) (slug : String) : Bool :=
  decide (('"' :: slug.data ++ ['"']) <:+: jsonDumpsList slugs)

/-- A character that `json.dumps` copies verbatim: printable ASCII other
than `"` and `\`. -/
def plainChar (c : Char) : Prop :=
  0x20 ≤ c.toNat ∧ c.toNat ≤ 0x7e ∧ c.toNat ≠ 0x22 ∧ c.toNat ≠ 0x5c

instance (c : Char) : Decidable (plainChar c) := by
  unfold plainChar; infer_instance

/-- A slug whose JSON encoding is itself surrounded by quotes. -/
def PlainSlug (slug : String) : Prop := ∀ c ∈ slug.data, plainChar c

instance (slug : String) : Decidable (PlainSlug slug) := by
  unfold PlainSlug; infer_instance

/-- Python `list.remove`: drop the first occurrence (the caller has already
checked membership). -/
def removeFirst : List String → String → List String
  | [], _ => []
  | x :: xs, y => if x = y then xs else x :: removeFirst xs y

/-- Python's `str.strip()`: drop leading and trailing whitespace.
(Modelled structurally on the character list; `Char.isWhitespace` covers
the ASCII whitespace relevant here.) -/
def pyStrip (s : String) : String :=
  ⟨((s.data.dropWhile Char.isWhitespace).reverse.dropWhile Char.isWhitespace).reverse⟩

/-- SQLite BINARY collation on TEXT: lexicographic comparison of the
character sequences (memcmp on UTF-8, which coincides with codepoint
order). -/
def charListLe : List Char → List Char → Bool
  | [], _ => true
  | _ :: _, [] => false
  | x :: xs, y :: ys =>
    if x.toNat < y.toNat then true
    else if y.toNat < x.toNat then false
    else charListLe xs ys

/-- Insert one `IN (...)` value into the sorted, duplicate-free value
list, as SQLite's ephemeral index does. -/
def insertInValue (x : String) : List String → List String
  | [] => [x]
  | y :: ys =>
    if x = y then y :: ys
    else if charListLe x.data y.data then x :: y :: ys
    else y :: insertInValue x ys

/-- The distinct values of an `IN (...)` list in ascending BINARY order:
SQLite loads the right-hand side of `IN` into a sorted ephemeral index
and the query iterates it in that order. -/
def sortedInValues (xs : List String) : List String := xs.foldr insertInValue []

/-! ## Adapter operations (class SQLiteAdapter in sqlite.py) -/

namespace SQLiteAdapter

/-- `get_topic`: first row with this slug (`fetchone`). -/
def get_topic (s : GraphState) (slug : String) : Option Topic :=
  s.topics.find? (fun t => t.urlSlug == slug)

/-- `get_edge`. -/
def get_edge (s : GraphState) (p c : String) : Option Edge :=
  s.edges.find? (fun e => e.parentSlug == p && e.childSlug == c)

/-- `get_course`. -/
def get_course (s : GraphState) (cid : Nat) : Option Course :=
  s.courses.find? (fun co => co.courseId == cid)

/-- Payload of `POST .../topics` (class TopicCreate). -/
structure TopicCreate where
  urlSlug : String
  displayName : String
  courseId : Nat
  contentHtml : Option String
  contentText : Option String
deriving Repr, DecidableEq

/-- Payload of `PATCH .../topics/{slug}` (class TopicUpdate). -/
structure TopicUpdate where
  displayName : Option String
  courseId : Option Nat
  contentHtml : Option String
  contentText : Option String
deriving Repr, DecidableEq

/-- Payload of `POST .../edges` (class EdgeCreate). -/
structure EdgeCreate where
  parentSlug : String
  childSlug : String
deriving Repr, DecidableEq

/-- Payload of course creation (class CourseCreate). -/
structure CourseCreate where
  name : String
  color : String
deriving Repr, DecidableEq

/-- Payload of course update (class CourseUpdate). -/
structure CourseUpdate where
  name : Option String
  color : Option String
deriving Repr, DecidableEq

/-- `create_topic`: INSERT with `parent_slugs = '[]'` and
`has_content = 1 if content_html or content_text else 0`; the
`UNIQUE(graph_id, url_slug)` constraint raises on a duplicate slug. -/
def create_topic (s : GraphState) (d : TopicCreate) : Except ErrCode GraphState :=
  if (get_topic s d.urlSlug).isSome then .error .INTEGRITY_ERROR
  else .ok { s with topics := s.topics ++
    [{ urlSlug := d.urlSlug, displayName := d.displayName, courseId := d.courseId,
       parentSlugs := [], contentHtml := d.contentHtml, contentText := d.contentText,
       hasContent := strTruthy d.contentHtml || strTruthy d.contentText }] }

/-- The merged content field of `update_topic`:
`data.content_x if data.content_x is not None else current.content_x`,
where `current` is the `fetchone` result; touching a field of a missing
`current` raises `AttributeError`. -/
def mergedField (field : Topic → Option String) (given : Option String)
    (current : Option Topic) : Except ErrCode (Option String) :=
  match given with
  | some v => .ok (some v)
  | none =>
    match current with
    | some cur => .ok (field cur)
    | none => .error .ATTRIBUTE_ERROR

/-- `update_topic`: applies the supplied fields and always recomputes
`has_content` from the merged content fields of the first fetched row,
writing it to every row with this slug. -/
def update_topic (s : GraphState) (slug : String) (d : TopicUpdate) :
    Except ErrCode GraphState := do
  let current := get_topic s slug
  let newHtml ← mergedField Topic.contentHtml d.contentHtml current
  let newText ← mergedField Topic.contentText d.contentText current
  let hasC := strTruthy newHtml || strTruthy newText
  .ok { s with topics := s.topics.map (fun t =>
    if t.urlSlug == slug then
      { t with displayName := d.displayName.getD t.displayName,
               courseId := d.courseId.getD t.courseId,
               contentHtml := if d.contentHtml.isSome then d.contentHtml else t.contentHtml,
               contentText := if d.contentText.isSome then d.contentText else t.contentText,
               hasContent := hasC }
    else t) }

/-- `delete_topic`: deletes every edge touching the slug; then, for every
row selected by `parent_slugs LIKE '%"slug"%'` whose decoded list really
contains the slug, removes its first occurrence; finally deletes the
topic row itself.  No existence check anywhere. -/
def delete_topic (s : GraphState) (slug : String) : GraphState :=
  let edges1 := s.edges.filter (fun e => !(e.parentSlug == slug || e.childSlug == slug))
  let topics1 := s.topics.map (fun t =>
    if likeContains t.parentSlugs slug && decide (slug ∈ t.parentSlugs) then
      { t with parentSlugs := removeFirst t.parentSlugs slug }
    else t)
  let topics2 := topics1.filter (fun t => !(t.urlSlug == slug))
  { s with edges := edges1, topics := topics2 }

/-- `create_edge`: INSERT (the `UNIQUE(graph_id, parent_slug, child_slug)`
constraint raises on a duplicate pair); then, if a row for the child slug
exists and the parent is not already in its `parent_slugs`, every row with
the child slug is rewritten to the fetched list plus the parent.  No
self-loop or endpoint-existence check at this level. -/
def create_edge (s : GraphState) (d : EdgeCreate) : Except ErrCode GraphState :=
  if (get_edge s d.parentSlug d.childSlug).isSome then .error .INTEGRITY_ERROR
  else
    let s1 : GraphState := { s with edges := s.edges ++ [{ parentSlug := d.parentSlug, childSlug := d.childSlug }] }
    match get_topic s1 d.childSlug with
    | none => .ok s1
    | some row =>
      if d.parentSlug ∈ row.parentSlugs then .ok s1
      else .ok { s1 with topics := s1.topics.map (fun t =>
        if t.urlSlug == d.childSlug then
          { t with parentSlugs := row.parentSlugs ++ [d.parentSlug] }
        else t) }

/-- `delete_edge`: DELETE the pair (no existence check); then, if a row for
the child slug exists and the parent is in its `parent_slugs`, every row
with the child slug is rewritten to the fetched list minus the parent. -/
def delete_edge (s : GraphState) (p c : String) : GraphState :=
  let s1 : GraphState := { s with edges := s.edges.filter (fun e => !(e.parentSlug == p && e.childSlug == c)) }
  match get_topic s1 c with
  | none => s1
  | some row =>
    if p ∈ row.parentSlugs then
      { s1 with topics := s1.topics.map (fun t =>
        if t.urlSlug == c then { t with parentSlugs := removeFirst row.parentSlugs p }
        else t) }
    else s1

/-- `create_course`: `course_id = COALESCE(MAX(course_id), 0) + 1`, name
stripped.  The fresh id cannot collide, so this never raises. -/
def create_course (s : GraphState) (d : CourseCreate) : GraphState :=
  let next := (s.courses.foldl (fun m co => max m co.courseId) 0) + 1
  { s with courses := s.courses ++ [{ courseId := next, name := pyStrip d.name, color := d.color }] }

/-- `update_course`: applies the supplied fields; an absent course simply
updates zero rows (no error). -/
def update_course (s : GraphState) (cid : Nat) (d : CourseUpdate) : GraphState :=
  if d.name.isSome || d.color.isSome then
    { s with courses := s.courses.map (fun co =>
      if co.courseId == cid then
        { co with name := (d.name.map pyStrip).getD co.name, color := d.color.getD co.color }
      else co) }
  else s

/-- `delete_course`: DELETE by id, no existence check. -/
def delete_course (s : GraphState) (cid : Nat) : GraphState :=
  { s with courses := s.courses.filter (fun co => !(co.courseId == cid)) }

/-- `get_topic_prerequisites`: empty for a missing topic or an empty
`parent_slugs` list, else `SELECT * FROM kg_topics WHERE graph_id = ? AND
url_slug IN (...)`.  The query carries no ORDER BY; SQLite serves it
through the `(graph_id, url_slug)` index, iterating the distinct `IN`
values from a sorted ephemeral index, so rows come back in ascending slug
order — modelled as looking each sorted value up in the topic table. -/
def get_topic_prerequisites (s : GraphState) (slug : String) : List Topic :=
  match get_topic s slug with
  | none => []
  | some t =>
    if t.parentSlugs.isEmpty then []
    else (sortedInValues t.parentSlugs).filterMap
      (fun ps => s.topics.find? (fun u => u.urlSlug == ps))

/-- `get_topic_dependents`: join of topics against edges with this parent. -/
def get_topic_dependents (s : GraphState) (slug : String) : List Topic :=
  s.topics.filter (fun t => s.edges.any (fun e => e.parentSlug == slug && e.childSlug == t.urlSlug))

end SQLiteAdapter

/-! ## Batch operations (SQLiteAdapter.batch_update and models.py) -/

namespace SQLiteAdapter

/-- One entry of `topics.update` in a batch payload (class BatchTopicUpdate). -/
structure BatchTopicUpdate where
  urlSlug : String
  data : TopicUpdate
deriving Repr, DecidableEq

/-- One entry of `courses.update` in a batch payload (class BatchCourseUpdate). -/
structure BatchCourseUpdate where
  courseId : Nat
  data : CourseUpdate
deriving Repr, DecidableEq

/-- One entry of `edges.delete` in a batch payload (class BatchEdgeDelete). -/
structure BatchEdgeDelete where
  parentSlug : String
  childSlug : String
deriving Repr, DecidableEq

/-- Batch payload for courses (class BatchCoursesOperations). -/
structure BatchCoursesOperations where
  create : Option (List CourseCreate)
  update : Option (List BatchCourseUpdate)
  delete : Option (List Nat)
deriving Repr, DecidableEq

/-- Batch payload for topics (class BatchTopicsOperations). -/
structure BatchTopicsOperations where
  create : Option (List TopicCreate)
  update : Option (List BatchTopicUpdate)
  delete : Option (List String)
deriving Repr, DecidableEq

/-- Batch payload for edges (class BatchEdgesOperations). -/
structure BatchEdgesOperations where
  create : Option (List EdgeCreate)
  delete : Option (List BatchEdgeDelete)
deriving Repr, DecidableEq

/-- Batch payload (class BatchOperations). -/
structure BatchOperations where
  courses : Option BatchCoursesOperations
  topics : Option BatchTopicsOperations
  edges : Option BatchEdgesOperations
deriving Repr, DecidableEq

/-- The per-category success counts returned by a batch call (class
BatchResult); the endpoint reports nothing else about individual items. -/
structure BatchResult where
  coursesCreated : Nat
  coursesUpdated : Nat
  coursesDeleted : Nat
  topicsCreated : Nat
  topicsUpdated : Nat
  topicsDeleted : Nat
  edgesCreated : Nat
  edgesDeleted : Nat
deriving Repr, DecidableEq

/-- The zero-initialised result `batch_update` starts from. -/
def zeroResult : BatchResult := ⟨0, 0, 0, 0, 0, 0, 0, 0⟩

/-- The items of one phase: Python guards each loop with
`if operations.x and operations.x.y:`, where an absent or empty list makes
the loop vacuous — modelled by extracting the possibly-empty list. -/
def edgeDeletes (ops : BatchOperations) : List BatchEdgeDelete :=
  match ops.edges with | none => [] | some e => e.delete.getD []

/-- The `topics.delete` items of a batch payload. -/
def topicDeletes (ops : BatchOperations) : List String :=
  match ops.topics with | none => [] | some t => t.delete.getD []

/-- The `courses.delete` items of a batch payload. -/
def courseDeletes (ops : BatchOperations) : List Nat :=
  match ops.courses with | none => [] | some c => c.delete.getD []

/-- The `courses.create` items of a batch payload. -/
def courseCreates (ops : BatchOperations) : List CourseCreate :=
  match ops.courses with | none => [] | some c => c.create.getD []

/-- The `topics.create` items of a batch payload. -/
def topicCreates (ops : BatchOperations) : List TopicCreate :=
  match ops.topics with | none => [] | some t => t.create.getD []

/-- The `edges.create` items of a batch payload. -/
def edgeCreates (ops : BatchOperations) : List EdgeCreate :=
  match ops.edges with | none => [] | some e => e.create.getD []

/-- The `courses.update` items of a batch payload. -/
def courseUpdates (ops : BatchOperations) : List BatchCourseUpdate :=
  match ops.courses with | none => [] | some c => c.update.getD []

/-- The `topics.update` items of a batch payload. -/
def topicUpdates (ops : BatchOperations) : List BatchTopicUpdate :=
  match ops.topics with | none => [] | some t => t.update.getD []

/-- One `try: op; count += 1; except Exception: pass` loop of
`batch_update`: each item is attempted on the current state; a success
advances the state and bumps the category counter, a failure leaves both
untouched. -/
def runItems (p : GraphState × BatchResult) (items : List α)
    (f : GraphState → α → Except ErrCode GraphState)
    (bump : BatchResult → BatchResult) : GraphState × BatchResult :=
  items.foldl (fun q a =>
    match f q.1 a with
    | .ok s' => (s', bump q.2)
    | .error _ => q) p

/-- `batch_update`: deletions (edges, topics, courses), then creations
(courses, topics, edges), then updates (courses, topics), every item
best-effort.  Operations that cannot raise are wrapped in `.ok`. -/
def batch_update (s : GraphState) (ops : BatchOperations) : GraphState × BatchResult :=
  let p0 := (s, zeroResult)
  let p1 := runItems p0 (edgeDeletes ops)
    (fun st d => .ok (delete_edge st d.parentSlug d.childSlug))
    (fun r => { r with edgesDeleted := r.edgesDeleted + 1 })
  let p2 := runItems p1 (topicDeletes ops)
    (fun st sl => .ok (delete_topic st sl))
    (fun r => { r with topicsDeleted := r.topicsDeleted + 1 })
  let p3 := runItems p2 (courseDeletes ops)
    (fun st cid => .ok (delete_course st cid))
    (fun r => { r with coursesDeleted := r.coursesDeleted + 1 })
  let p4 := runItems p3 (courseCreates ops)
    (fun st d => .ok (create_course st d))
    (fun r => { r with coursesCreated := r.coursesCreated + 1 })
  let p5 := runItems p4 (topicCreates ops)
    (fun st d => create_topic st d)
    (fun r => { r with topicsCreated := r.topicsCreated + 1 })
  let p6 := runItems p5 (edgeCreates ops)
    (fun st d => create_edge st d)
    (fun r => { r with edgesCreated := r.edgesCreated + 1 })
  let p7 := runItems p6 (courseUpdates ops)
    (fun st u => .ok (update_course st u.courseId u.data))
    (fun r => { r with coursesUpdated := r.coursesUpdated + 1 })
  let p8 := runItems p7 (topicUpdates ops)
    (fun st u => update_topic st u.urlSlug u.data)
    (fun r => { r with topicsUpdated := r.topicsUpdated + 1 })
  p8

end SQLiteAdapter

/-! ## Spec-side batch model, for the refinement claim about ordering.

Written from the spec's words: a batch is flattened into one list of items
in the documented fixed order — deletes (edges, topics, courses), creates
(courses, topics, edges), updates (courses, topics) — and that list is run
best-effort, each item failure caught and skipped, accumulating only
per-category success counts. -/

namespace BatchSpec

open SQLiteAdapter

/-- A single batch item, tagged with its category. -/
inductive BatchItem where
  | edgeDel (d : BatchEdgeDelete)
  | topicDel (slug : String)
  | courseDel (cid : Nat)
  | courseCre (d : CourseCreate)
  | topicCre (d : TopicCreate)
  | edgeCre (d : EdgeCreate)
  | courseUpd (u : BatchCourseUpdate)
  | topicUpd (u : BatchTopicUpdate)
deriving Repr, DecidableEq

/-- Modelled from the spec: the fixed execution order — deletes first
(edges, topics, courses), then creates (courses, topics, edges), then
updates (courses, topics). -/
def specOrder (ops : BatchOperations) : List BatchItem :=
  (edgeDeletes ops).map .edgeDel ++ (topicDeletes ops).map .topicDel ++
  (courseDeletes ops).map .courseDel ++ (courseCreates ops).map .courseCre ++
  (topicCreates ops).map .topicCre ++ (edgeCreates ops).map .edgeCre ++
  (courseUpdates ops).map .courseUpd ++ (topicUpdates ops).map .topicUpd

/-- Modelled from the spec: applying one item is the corresponding
consistency-engine operation. -/
def applyItem (s : GraphState) : BatchItem → Except ErrCode GraphState
  | .edgeDel d => .ok (delete_edge s d.parentSlug d.childSlug)
  | .topicDel slug => .ok (delete_topic s slug)
  | .courseDel cid => .ok (delete_course s cid)
  | .courseCre d => .ok (create_course s d)
  | .topicCre d => create_topic s d
  | .edgeCre d => create_edge s d
  | .courseUpd u => .ok (update_course s u.courseId u.data)
  | .topicUpd u => update_topic s u.urlSlug u.data

/-- Modelled from the spec: a success bumps only its category's counter. -/
def incCat : BatchItem → BatchResult → BatchResult
  | .edgeDel _, r => { r with edgesDeleted := r.edgesDeleted + 1 }
  | .topicDel _, r => { r with topicsDeleted := r.topicsDeleted + 1 }
  | .courseDel _, r => { r with coursesDeleted := r.coursesDeleted + 1 }
  | .courseCre _, r => { r with coursesCreated := r.coursesCreated + 1 }
  | .topicCre _, r => { r with topicsCreated := r.topicsCreated + 1 }
  | .edgeCre _, r => { r with edgesCreated := r.edgesCreated + 1 }
  | .courseUpd _, r => { r with coursesUpdated := r.coursesUpdated + 1 }
  | .topicUpd _, r => { r with topicsUpdated := r.topicsUpdated + 1 }

/-- Modelled from the spec: best-effort execution of one item — a failure
is caught and skipped rather than aborting the batch. -/
def bestEffortStep (p : GraphState × BatchResult) (it : BatchItem) :
    GraphState × BatchResult :=
  match applyItem p.1 it with
  | .ok s' => (s', incCat it p.2)
  | .error _ => p

/-- Modelled from the spec: the whole batch is the best-effort run of the
items in the fixed order, reporting only the per-category counts. -/
def batchUpdateSpec (s : GraphState) (ops : BatchOperations) :
    GraphState × BatchResult :=
  (specOrder ops).foldl bestEffortStep (s, zeroResult)

end BatchSpec

/-! ## Route handlers (server/src/routes/graphs.py)

Each route resolves the graph and (for mutations) rejects readonly graphs
first, via the `require_writable` dependency; the per-graph handlers below
embed the handler body that runs on an already-resolved writable graph. -/

namespace routes

open SQLiteAdapter

/-- `GET .../topics/{slug}`: 404 TOPIC_NOT_FOUND when absent. -/
def get_topic (s : GraphState) (slug : String) : Except ErrCode Topic :=
  match SQLiteAdapter.get_topic s slug with
  | none => .error .TOPIC_NOT_FOUND
  | some t => .ok t

/-- `GET .../topics/{slug}/prerequisites`: 404 when the topic is absent,
else the adapter's prerequisite lookup. -/
def get_topic_prerequisites (s : GraphState) (slug : String) :
    Except ErrCode (List Topic) :=
  match SQLiteAdapter.get_topic s slug with
  | none => .error .TOPIC_NOT_FOUND
  | some _ => .ok (SQLiteAdapter.get_topic_prerequisites s slug)

/-- `GET .../topics/{slug}/dependents`: 404 when the topic is absent. -/
def get_topic_dependents (s : GraphState) (slug : String) :
    Except ErrCode (List Topic) :=
  match SQLiteAdapter.get_topic s slug with
  | none => .error .TOPIC_NOT_FOUND
  | some _ => .ok (SQLiteAdapter.get_topic_dependents s slug)

/-- `POST .../edges`: rejects self-loops, missing endpoints and duplicate
edges in that order, then defers to the adapter. -/
def create_edge (s : GraphState) (d : EdgeCreate) : Except ErrCode GraphState :=
  if d.parentSlug == d.childSlug then .error .VALIDATION_ERROR
  else if (SQLiteAdapter.get_topic s d.parentSlug).isNone then .error .TOPIC_NOT_FOUND
  else if (SQLiteAdapter.get_topic s d.childSlug).isNone then .error .TOPIC_NOT_FOUND
  else if (SQLiteAdapter.get_edge s d.parentSlug d.childSlug).isSome then .error .DUPLICATE_ENTRY
  else SQLiteAdapter.create_edge s d

/-- `DELETE .../topics/{slug}`: 404 when absent, else the adapter delete. -/
def delete_topic (s : GraphState) (slug : String) : Except ErrCode GraphState :=
  match SQLiteAdapter.get_topic s slug with
  | none => .error .TOPIC_NOT_FOUND
  | some _ => .ok (SQLiteAdapter.delete_topic s slug)

end routes

/-! ## Multi-graph store (graph registry claims) -/

/-- The whole store: the `knowledge_graphs` table plus the three data
tables, each data row tagged with its owning `graph_id`. -/
structure DB where
  graphs : List GraphMeta
  courses : List (String × Course)
  topics : List (String × Topic)
  edges : List (String × Edge)
deriving Repr, DecidableEq

/-- Payload of `POST /api/v1/graphs` (class KnowledgeGraphCreate). -/
structure KnowledgeGraphCreate where
  name : String
  description : Option String
  copyFromGraphId : Option String
deriving Repr, DecidableEq

namespace SQLiteAdapter

/-- `get_graph`: row with this id. -/
def get_graph (db : DB) (gid : String) : Option GraphMeta :=
  db.graphs.find? (fun g => g.id == gid)

/-- `_copy_graph_data`: three `INSERT ... SELECT` statements appending a
copy of every source-tagged course, topic (with its `parent_slugs`
verbatim) and edge, retagged with the target id, in source row order. -/
def copy_graph_data (db : DB) (src tgt : String) : DB :=
  { db with
    courses := db.courses ++ (db.courses.filter (fun p => p.1 == src)).map (fun p => (tgt, p.2)),
    topics := db.topics ++ (db.topics.filter (fun p => p.1 == src)).map (fun p => (tgt, p.2)),
    edges := db.edges ++ (db.edges.filter (fun p => p.1 == src)).map (fun p => (tgt, p.2)) }

/-- `create_graph`: inserts the row with `is_default = 0, is_readonly = 0`
and `source_graph_id = copy_from_graph_id`, then copies the source's data
when a source is given.  The freshly generated uuid is passed in as
`newId` (uuid generation is the only nondeterminism). -/
def create_graph (db : DB) (newId : String) (d : KnowledgeGraphCreate) : DB :=
  let db1 : DB := { db with graphs := db.graphs ++
    [{ id := newId, name := d.name, description := d.description,
       isDefault := false, isReadonly := false, sourceGraphId := d.copyFromGraphId }] }
  match d.copyFromGraphId with
  | none => db1
  | some src => copy_graph_data db1 src newId

/-- The effect of a successful graph DELETE: the graph row goes, and the
`ON DELETE CASCADE` clauses on the three data tables remove every owned
course, topic and edge. -/
def deleteGraphRows (db : DB) (gid : String) : DB :=
  { graphs := db.graphs.filter (fun g => !(g.id == gid)),
    courses := db.courses.filter (fun p => !(p.1 == gid)),
    topics := db.topics.filter (fun p => !(p.1 == gid)),
    edges := db.edges.filter (fun p => !(p.1 == gid)) }

/-- `delete_graph`: `DELETE FROM knowledge_graphs WHERE id = ?` with
`PRAGMA foreign_keys = ON`.  The `source_graph_id` foreign key carries no
ON DELETE action, so the statement raises IntegrityError — deleting
nothing — when a remaining graph references the deleted one as its copy
source; otherwise the cascade removes the owned rows. -/
def delete_graph (db : DB) (gid : String) : Except ErrCode DB :=
  if db.graphs.any (fun g' => !(g'.id == gid) && decide (g'.sourceGraphId = some gid)) then
    .error .INTEGRITY_ERROR
  else .ok (deleteGraphRows db gid)

end SQLiteAdapter

namespace routes

/-- `DELETE /api/v1/graphs/{id}`: `require_writable` resolves the graph
(404) and rejects readonly graphs first; only then is the default-graph
guard checked; otherwise the adapter delete runs — whose IntegrityError,
when raised, propagates out of the handler unhandled (a 500). -/
def delete_graph (db : DB) (gid : String) : Except ErrCode DB :=
  match SQLiteAdapter.get_graph db gid with
  | none => .error .GRAPH_NOT_FOUND
  | some g =>
    if g.isReadonly then .error .READONLY_GRAPH
    else if g.isDefault then .error .CANNOT_DELETE_DEFAULT
    else SQLiteAdapter.delete_graph db gid

/-- `POST /api/v1/graphs`: empty/whitespace name is a validation error;
with `copyFromGraphId`, a missing source graph is a 404; then the adapter
creates (and possibly copies). -/
def create_graph (db : DB) (newId : String) (d : KnowledgeGraphCreate) :
    Except ErrCode DB :=
  if pyStrip d.name == "" then .error .VALIDATION_ERROR
  else
    match d.copyFromGraphId with
    | some src =>
      if (SQLiteAdapter.get_graph db src).isNone then .error .GRAPH_NOT_FOUND
      else .ok (SQLiteAdapter.create_graph db newId d)
    | none => .ok (SQLiteAdapter.create_graph db newId d)

end routes

/-! ## Derived views and invariants used by the claims -/

/-- The `parentSlug`s of the edges whose `childSlug` is the given slug, in
edge order. -/
def parentsOf (es : List Edge) (slug : String) : List String :=
  (es.filter (fun e => e.childSlug == slug)).map (fun e => e.parentSlug)

/-- Key well-formedness guaranteed by the schema's UNIQUE constraints:
slugs are unique among a graph's topics and (parent, child) pairs unique
among its edges. -/
def WF (s : GraphState) : Prop :=
  (s.topics.map Topic.urlSlug).Nodup ∧
  (s.edges.map (fun e => (e.parentSlug, e.childSlug))).Nodup

instance (s : GraphState) : Decidable (WF s) := by
  unfold WF; infer_instance

/-- The derived-field invariant: every topic's `parentSlugs` is
duplicate-free and equals, as a set, the parents of the edges into it. -/
def ParentInv (s : GraphState) : Prop :=
  ∀ t ∈ s.topics, t.parentSlugs.Nodup ∧
    t.parentSlugs.toFinset = (parentsOf s.edges t.urlSlug).toFinset

instance (s : GraphState) : Decidable (ParentInv s) := by
  unfold ParentInv; infer_instance

/-- A single edge mutation as issued against the adapter. -/
inductive EdgeOp where
  | create (d : SQLiteAdapter.EdgeCreate)
  | delete (p c : String)
deriving Repr, DecidableEq

/-- Running one edge mutation to completion: a raised uniqueness violation
aborts the statement and leaves the store unchanged. -/
def applyEdgeOp (s : GraphState) : EdgeOp → GraphState
  | .create d =>
    match SQLiteAdapter.create_edge s d with
    | .ok s' => s'
    | .error _ => s
  | .delete p c => SQLiteAdapter.delete_edge s p c

/-- Running a sequence of edge mutations. -/
def applyEdgeOps (s : GraphState) (ops : List EdgeOp) : GraphState :=
  ops.foldl applyEdgeOp s

/-- The row `create_topic` inserts: empty `parentSlugs`, `hasContent`
computed by Python truthiness of the content fields. -/
def topicOfCreate (d : SQLiteAdapter.TopicCreate) : Topic :=
  { urlSlug := d.urlSlug, displayName := d.displayName, courseId := d.courseId,
    parentSlugs := [], contentHtml := d.contentHtml, contentText := d.contentText,
    hasContent := strTruthy d.contentHtml || strTruthy d.contentText }

/-- The merged `content_html` of `update_topic`: the supplied value when
present, else the current row's. -/
def mergedHtml (d : SQLiteAdapter.TopicUpdate) (t : Topic) : Option String :=
  if d.contentHtml.isSome then d.contentHtml else t.contentHtml

/-- The merged `content_text` of `update_topic`. -/
def mergedText (d : SQLiteAdapter.TopicUpdate) (t : Topic) : Option String :=
  if d.contentText.isSome then d.contentText else t.contentText

/-- The `has_content` value `update_topic` always recomputes, from the
merged content fields of the fetched row. -/
def updatedHasContent (d : SQLiteAdapter.TopicUpdate) (t : Topic) : Bool :=
  strTruthy (mergedHtml d t) || strTruthy (mergedText d t)

/-- One row as rewritten by `update_topic`'s UPDATE statement: supplied
fields replace the row's, `has_content` is set to the recomputed value. -/
def applyTopicUpdate (u : Topic) (d : SQLiteAdapter.TopicUpdate) (hasC : Bool) : Topic :=
  { u with displayName := d.displayName.getD u.displayName,
           courseId := d.courseId.getD u.courseId,
           contentHtml := if d.contentHtml.isSome then d.contentHtml else u.contentHtml,
           contentText := if d.contentText.isSome then d.contentText else u.contentText,
           hasContent := hasC }

/-- The courses owned by one graph, in row order. -/
def coursesOf (db : DB) (gid : String) : List Course :=
  (db.courses.filter (fun r => r.1 == gid)).map (fun r => r.2)

/-- The topics owned by one graph, in row order. -/
def topicsOf (db : DB) (gid : String) : List Topic :=
  (db.topics.filter (fun r => r.1 == gid)).map (fun r => r.2)

/-- The edges owned by one graph, in row order. -/
def edgesOf (db : DB) (gid : String) : List Edge :=
  (db.edges.filter (fun r => r.1 == gid)).map (fun r => r.2)

/-! ## Concrete stores used by counterexamples and witnesses -/

/-- A slug containing a double-quote; reachable, since topic creation only
requires a non-empty slug. -/
def quoteSlug : String := "a\"b"

/-- Store for the `delete_topic` cleanup counterexample: the quoted-slug
topic is a parent of topic `c`. -/
def sQuote : GraphState :=
  ⟨[], [⟨quoteSlug, "Aq", 1, [], none, none, false⟩,
        ⟨"c", "C", 1, [quoteSlug], none, none, false⟩],
   [⟨quoteSlug, "c"⟩]⟩

/-- Store for the `delete_topic` witness: a plain parent slug. -/
def sPlainDel : GraphState :=
  ⟨[], [⟨"a", "A", 1, [], none, none, false⟩,
        ⟨"c", "C", 1, ["a"], none, none, false⟩],
   [⟨"a", "c"⟩]⟩

/-- Store for the prerequisite-order counterexample: topics `a`, `b`, `c`
in table (creation) order, with the edge `b → c` created before `a → c`,
so `c.parentSlugs = ["b", "a"]`. -/
def sPrereq : GraphState :=
  ⟨[], [⟨"a", "A", 1, [], none, none, false⟩,
        ⟨"b", "B", 1, [], none, none, false⟩,
        ⟨"c", "C", 1, ["b", "a"], none, none, false⟩],
   [⟨"b", "c"⟩, ⟨"a", "c"⟩]⟩

/-- The `c` topic of `sPrereq`. -/
def tPrereqC : Topic := ⟨"c", "C", 1, ["b", "a"], none, none, false⟩

/-- The `a` topic of `sPrereq`. -/
def tPrereqA : Topic := ⟨"a", "A", 1, [], none, none, false⟩

/-- Store for the batch-validation counterexample: one topic, no edges. -/
def sBatchVal : GraphState := ⟨[], [⟨"a", "A", 1, [], none, none, false⟩], []⟩

/-- Batch payload creating a self-loop edge and an edge with absent
endpoints, via the unvalidated batch path. -/
def opsBatchVal : SQLiteAdapter.BatchOperations :=
  ⟨none, none, some ⟨some [⟨"a", "a"⟩, ⟨"p", "q"⟩], none⟩⟩

/-- Store for the default-graph-deletion counterexample: the default graph
as the bootstrap creates it, with `is_default = 1` and `is_readonly = 1`. -/
def dbDefault : DB := ⟨[⟨"g", "Default Graph", none, true, true, none⟩], [], [], []⟩

/-- The graph row of `dbDefault`. -/
def gDefault : GraphMeta := ⟨"g", "Default Graph", none, true, true, none⟩

/-- Store for the graph-deletion witness: a deletable graph `g1` owning one
course, topic and edge, next to a readonly default graph `g0`. -/
def dbDel : DB :=
  ⟨[⟨"g0", "Default Graph", none, true, true, none⟩,
    ⟨"g1", "Scratch", none, false, false, none⟩],
   [("g1", ⟨1, "Math", "#111111"⟩), ("g0", ⟨1, "Base", "#000000"⟩)],
   [("g1", ⟨"a", "A", 1, [], none, none, false⟩)],
   [("g1", ⟨"a", "b"⟩)]⟩

/-- Store for the foreign-key deletion witness: graph `cp` was copied
from graph `src`, so `src` is referenced as a copy source. -/
def dbFk : DB :=
  ⟨[⟨"src", "Source", none, false, false, none⟩,
    ⟨"cp", "Copy", none, false, false, some "src"⟩], [], [], []⟩

/-- Store for the copy-on-create witness: a readonly source graph `src`
owning one course, one topic with a non-trivial `parentSlugs`, and one
edge. -/
def dbCopy : DB :=
  ⟨[⟨"src", "Source", none, false, true, none⟩],
   [("src", ⟨1, "Math", "#111111"⟩)],
   [("src", ⟨"b", "B", 1, ["a"], none, none, false⟩)],
   [("src", ⟨"a", "b"⟩)]⟩

/-- Start state for the edge-operations invariant witness: topics `a` and
`b`, no edges yet. -/
def sInv : GraphState :=
  ⟨[], [⟨"a", "A", 1, [], none, none, false⟩,
        ⟨"b", "B", 1, [], none, none, false⟩], []⟩

/-- Edge-operation sequence for the invariant witness: create `a → b`,
attempt a duplicate create, delete it, recreate it. -/
def opsInv : List EdgeOp :=
  [.create ⟨"a", "b"⟩, .create ⟨"a", "b"⟩, .delete "a" "b", .create ⟨"a", "b"⟩]

/-- The `b` topic as it must look after `opsInv`. -/
def tInvB : Topic := ⟨"b", "B", 1, ["a"], none, none, false⟩

/-- Store for the edge-route witness: topics `a` and `b`. -/
def sRoute : GraphState :=
  ⟨[], [⟨"a", "A", 1, [], none, none, false⟩,
        ⟨"b", "B", 1, [], none, none, false⟩], []⟩

/-- Child topic of `sRoute`. -/
def tRouteB : Topic := ⟨"b", "B", 1, [], none, none, false⟩

/-- The state `sRoute` must reach after the edge `a → b` is created. -/
def sRouteAfter : GraphState :=
  ⟨[], [⟨"a", "A", 1, [], none, none, false⟩,
        ⟨"b", "B", 1, ["a"], none, none, false⟩], [⟨"a", "b"⟩]⟩

/-- The deletable graph row of `dbDel`. -/
def gScratch : GraphMeta := ⟨"g1", "Scratch", none, false, false, none⟩

/-- Store for the hasContent witness: one topic with empty-string HTML (a
falsy value in Python) and no text. -/
def sContent : GraphState :=
  ⟨[], [⟨"t", "T", 1, [], some "", none, false⟩], []⟩

/-- The topic of `sContent`. -/
def tContentW : Topic := ⟨"t", "T", 1, [], some "", none, false⟩

/-- Create payload for the hasContent witness: an empty-string HTML body,
falsy in Python. -/
def dCreateW : SQLiteAdapter.TopicCreate := ⟨"t", "T", 1, some "", none⟩

/-- Update payload for the hasContent witness: renames the topic and sets
only the text content. -/
def dUpdW : SQLiteAdapter.TopicUpdate := ⟨some "T2", none, none, some "body"⟩

/-- The empty per-graph store. -/
def sEmpty : GraphState := ⟨[], [], []⟩

/-- Batch payload deleting one absent edge, topic and course. -/
def opsAbsentDel : SQLiteAdapter.BatchOperations :=
  ⟨some ⟨none, none, some [5]⟩, some ⟨none, none, some ["x"]⟩,
   some ⟨none, some [⟨"p", "q"⟩]⟩⟩

/-! ## Helper lemmas: `removeFirst` -/

lemma mem_of_mem_removeFirst {l : List String} {y a : String}
    (h : a ∈ removeFirst l y) : a ∈ l := by
  induction l with
  | nil => simp [removeFirst] at h
  | cons x xs ih =>
    rw [removeFirst] at h
    by_cases hxy : x = y
    · rw [if_pos hxy] at h; exact List.mem_cons_of_mem _ h
    · rw [if_neg hxy] at h
      rcases List.mem_cons.mp h with h | h
      · exact h ▸ List.mem_cons_self _ _
      · exact List.mem_cons_of_mem _ (ih h)

lemma mem_removeFirst_of_ne {l : List String} {y a : String} (hne : a ≠ y) :
    a ∈ removeFirst l y ↔ a ∈ l := by
  induction l with
  | nil => simp [removeFirst]
  | cons x xs ih =>
    rw [removeFirst]
    by_cases hxy : x = y
    · subst hxy
      rw [if_pos rfl, List.mem_cons]
      exact (or_iff_right hne).symm
    · rw [if_neg hxy, List.mem_cons, List.mem_cons, ih]

lemma not_mem_removeFirst_self {l : List String} {y : String} (h : l.Nodup) :
    y ∉ removeFirst l y := by
  induction l with
  | nil => simp [removeFirst]
  | cons x xs ih =>
    rcases List.nodup_cons.mp h with ⟨hx, hxs⟩
    rw [removeFirst]
    by_cases hxy : x = y
    · rw [if_pos hxy]; exact hxy ▸ hx
    · rw [if_neg hxy]
      intro hmem
      rcases List.mem_cons.mp hmem with h' | h'
      · exact hxy h'.symm
      · exact ih hxs h'

lemma removeFirst_nodup {l : List String} {y : String} (h : l.Nodup) :
    (removeFirst l y).Nodup := by
  induction l with
  | nil => simp [removeFirst]
  | cons x xs ih =>
    rcases List.nodup_cons.mp h with ⟨hx, hxs⟩
    rw [removeFirst]
    by_cases hxy : x = y
    · rw [if_pos hxy]; exact hxs
    · rw [if_neg hxy]
      exact List.nodup_cons.mpr ⟨fun hm => hx (mem_of_mem_removeFirst hm), ih hxs⟩

/-! ## Helper lemmas: `sortedInValues` -/

lemma mem_insertInValue {x a : String} {l : List String} :
    a ∈ insertInValue x l ↔ (a = x ∨ a ∈ l) := by
  induction l with
  | nil => simp [insertInValue]
  | cons y ys ih =>
    rw [insertInValue]
    by_cases hxy : x = y
    · rw [if_pos hxy]
      subst hxy
      rw [List.mem_cons]
      tauto
    · rw [if_neg hxy]
      by_cases hle : charListLe x.data y.data = true
      · rw [if_pos hle]
        simp [List.mem_cons]
      · rw [if_neg hle]
        rw [List.mem_cons, List.mem_cons, ih]
        tauto

lemma mem_sortedInValues {a : String} {xs : List String} :
    a ∈ sortedInValues xs ↔ a ∈ xs := by
  induction xs with
  | nil => simp [sortedInValues]
  | cons x xs ih =>
    show a ∈ insertInValue x (sortedInValues xs) ↔ _
    rw [mem_insertInValue, ih, List.mem_cons]

/-! ## Helper lemmas: `find?` on topic tables -/

lemma find_unique_slug {l : List Topic} {t : Topic} {c : String}
    (hnd : (l.map Topic.urlSlug).Nodup) (ht : t ∈ l) (hc : t.urlSlug = c) :
    l.find? (fun u => u.urlSlug == c) = some t := by
  induction l with
  | nil => cases ht
  | cons a as ih =>
    rw [List.map_cons, List.nodup_cons] at hnd
    rcases List.mem_cons.mp ht with h | h
    · subst h
      exact List.find?_cons_of_pos _ (by simp [hc])
    · have hne : a.urlSlug ≠ c := by
        intro he
        exact hnd.1 (he ▸ hc ▸ List.mem_map_of_mem Topic.urlSlug h)
      rw [List.find?_cons_of_neg _ (by simp [hne])]
      exact ih hnd.2 h

lemma find?_map_slug {l : List Topic} {f : Topic → Topic} {c : String}
    (hf : ∀ t, (f t).urlSlug = t.urlSlug) :
    (l.map f).find? (fun u => u.urlSlug == c) =
      (l.find? (fun u => u.urlSlug == c)).map f := by
  induction l with
  | nil => rfl
  | cons a as ih =>
    by_cases h : a.urlSlug = c
    · rw [List.map_cons, List.find?_cons_of_pos _ (by simp [hf, h]),
        List.find?_cons_of_pos _ (by simp [h]), Option.map_some']
    · rw [List.map_cons, List.find?_cons_of_neg _ (by simp [hf, h]),
        List.find?_cons_of_neg _ (by simp [h]), ih]

/-! ## Helper lemmas: `parentsOf` -/

lemma mem_parentsOf {es : List Edge} {slug q : String} :
    q ∈ parentsOf es slug ↔ ∃ e ∈ es, e.childSlug = slug ∧ e.parentSlug = q := by
  simp only [parentsOf, List.mem_map, List.mem_filter, beq_iff_eq]
  constructor
  · rintro ⟨e, ⟨he, hc⟩, hp⟩; exact ⟨e, he, hc, hp⟩
  · rintro ⟨e, he, hc, hp⟩; exact ⟨e, ⟨he, hc⟩, hp⟩

lemma parentsOf_append {es fs : List Edge} {slug : String} :
    parentsOf (es ++ fs) slug = parentsOf es slug ++ parentsOf fs slug := by
  simp [parentsOf, List.filter_append]

/-! ## Helper lemmas: the JSON encoding and the LIKE prefilter -/

lemma escChar_plain {c : Char} (h : plainChar c) : escChar c = [c] := by
  obtain ⟨h1, h2, h3, h4⟩ := h
  unfold escChar
  rw [if_neg h3, if_neg h4, if_neg (by omega), if_neg (by omega), if_neg (by omega),
    if_neg (by omega), if_neg (by omega), if_pos ⟨h1, h2⟩]

lemma flatten_escChar {l : List Char} (h : ∀ c ∈ l, plainChar c) :
    (l.map escChar).flatten = l := by
  induction l with
  | nil => rfl
  | cons c cs ih =>
    rw [List.map_cons, List.flatten_cons, escChar_plain (h c (List.mem_cons_self _ _)),
      ih (fun x hx => h x (List.mem_cons_of_mem _ hx))]
    rfl

lemma encStr_plain {slug : String} (h : PlainSlug slug) :
    encStr slug = '"' :: slug.data ++ ['"'] := by
  unfold encStr
  rw [flatten_escChar h]

lemma enc_infix_dumpsBody {x : String} {xs : List String} (h : x ∈ xs) :
    encStr x <:+: dumpsBody xs := by
  induction xs with
  | nil => cases h
  | cons y ys ih =>
    rcases List.mem_cons.mp h with h | h
    · subst h
      cases ys with
      | nil => exact ⟨[], [], by simp [dumpsBody]⟩
      | cons z zs => exact ⟨[], [',', ' '] ++ dumpsBody (z :: zs), by simp [dumpsBody]⟩
    · cases ys with
      | nil => cases h
      | cons z zs =>
        obtain ⟨u, v, huv⟩ := ih h
        exact ⟨encStr y ++ [',', ' '] ++ u, v, by
          rw [dumpsBody]; rw [← huv]; simp⟩

lemma likeContains_of_mem {slugs : List String} {slug : String}
    (hp : PlainSlug slug) (hm : slug ∈ slugs) : likeContains slugs slug = true := by
  unfold likeContains
  rw [decide_eq_true_eq]
  rw [← encStr_plain hp]
  obtain ⟨u, v, huv⟩ := enc_infix_dumpsBody hm
  exact ⟨'[' :: u, v ++ [']'], by
    rw [jsonDumpsList, ← huv]; simp⟩

/-! ## Helper lemmas: edge mutations preserve the `parentSlugs` invariant -/

lemma create_edge_eq (s : GraphState) (d : SQLiteAdapter.EdgeCreate) :
    SQLiteAdapter.create_edge s d =
      if (SQLiteAdapter.get_edge s d.parentSlug d.childSlug).isSome then
        .error .INTEGRITY_ERROR
      else
        match s.topics.find? (fun t => t.urlSlug == d.childSlug) with
        | none => .ok { s with edges := s.edges ++ [⟨d.parentSlug, d.childSlug⟩] }
        | some row =>
          if d.parentSlug ∈ row.parentSlugs then
            .ok { s with edges := s.edges ++ [⟨d.parentSlug, d.childSlug⟩] }
          else
            .ok { s with
                  edges := s.edges ++ [⟨d.parentSlug, d.childSlug⟩],
                  topics := s.topics.map (fun t =>
                    if t.urlSlug == d.childSlug then
                      { t with parentSlugs := row.parentSlugs ++ [d.parentSlug] }
                    else t) } := rfl

lemma delete_edge_eq (s : GraphState) (p c : String) :
    SQLiteAdapter.delete_edge s p c =
      match s.topics.find? (fun t => t.urlSlug == c) with
      | none => { s with edges := s.edges.filter (fun e => !(e.parentSlug == p && e.childSlug == c)) }
      | some row =>
        if p ∈ row.parentSlugs then
          { s with
            edges := s.edges.filter (fun e => !(e.parentSlug == p && e.childSlug == c)),
            topics := s.topics.map (fun t =>
              if t.urlSlug == c then
                { t with parentSlugs := removeFirst row.parentSlugs p }
              else t) }
        else { s with edges := s.edges.filter (fun e => !(e.parentSlug == p && e.childSlug == c)) } := rfl

lemma create_edge_dup {s : GraphState} {d : SQLiteAdapter.EdgeCreate}
    (h : (SQLiteAdapter.get_edge s d.parentSlug d.childSlug).isSome) :
    SQLiteAdapter.create_edge s d = .error .INTEGRITY_ERROR := by
  rw [create_edge_eq, if_pos h]

lemma create_edge_no_child {s : GraphState} {d : SQLiteAdapter.EdgeCreate}
    (h : ¬(SQLiteAdapter.get_edge s d.parentSlug d.childSlug).isSome)
    (hrow : s.topics.find? (fun t => t.urlSlug == d.childSlug) = none) :
    SQLiteAdapter.create_edge s d =
      .ok { s with edges := s.edges ++ [⟨d.parentSlug, d.childSlug⟩] } := by
  rw [create_edge_eq, if_neg h, hrow]

lemma create_edge_child_mem {s : GraphState} {d : SQLiteAdapter.EdgeCreate} {row : Topic}
    (h : ¬(SQLiteAdapter.get_edge s d.parentSlug d.childSlug).isSome)
    (hrow : s.topics.find? (fun t => t.urlSlug == d.childSlug) = some row)
    (hpm : d.parentSlug ∈ row.parentSlugs) :
    SQLiteAdapter.create_edge s d =
      .ok { s with edges := s.edges ++ [⟨d.parentSlug, d.childSlug⟩] } := by
  rw [create_edge_eq, if_neg h, hrow]
  simp [hpm]

lemma create_edge_child_new {s : GraphState} {d : SQLiteAdapter.EdgeCreate} {row : Topic}
    (h : ¬(SQLiteAdapter.get_edge s d.parentSlug d.childSlug).isSome)
    (hrow : s.topics.find? (fun t => t.urlSlug == d.childSlug) = some row)
    (hpn : d.parentSlug ∉ row.parentSlugs) :
    SQLiteAdapter.create_edge s d =
      .ok { s with
            edges := s.edges ++ [⟨d.parentSlug, d.childSlug⟩],
            topics := s.topics.map (fun t =>
              if t.urlSlug == d.childSlug then
                { t with parentSlugs := row.parentSlugs ++ [d.parentSlug] }
              else t) } := by
  rw [create_edge_eq, if_neg h, hrow]
  simp [hpn]

lemma delete_edge_no_child {s : GraphState} {p c : String}
    (hrow : s.topics.find? (fun t => t.urlSlug == c) = none) :
    SQLiteAdapter.delete_edge s p c =
      { s with edges := s.edges.filter (fun e => !(e.parentSlug == p && e.childSlug == c)) } := by
  rw [delete_edge_eq, hrow]

lemma delete_edge_child_mem {s : GraphState} {p c : String} {row : Topic}
    (hrow : s.topics.find? (fun t => t.urlSlug == c) = some row)
    (hpm : p ∈ row.parentSlugs) :
    SQLiteAdapter.delete_edge s p c =
      { s with
        edges := s.edges.filter (fun e => !(e.parentSlug == p && e.childSlug == c)),
        topics := s.topics.map (fun t =>
          if t.urlSlug == c then { t with parentSlugs := removeFirst row.parentSlugs p }
          else t) } := by
  rw [delete_edge_eq, hrow]
  simp [hpm]

lemma delete_edge_child_not_mem {s : GraphState} {p c : String} {row : Topic}
    (hrow : s.topics.find? (fun t => t.urlSlug == c) = some row)
    (hpn : p ∉ row.parentSlugs) :
    SQLiteAdapter.delete_edge s p c =
      { s with edges := s.edges.filter (fun e => !(e.parentSlug == p && e.childSlug == c)) } := by
  rw [delete_edge_eq, hrow]
  simp [hpn]

lemma map_update_slugs (l : List Topic) (c : String) (g : Topic → List String) :
    ((l.map (fun t => if t.urlSlug == c then { t with parentSlugs := g t } else t)).map
      Topic.urlSlug) = l.map Topic.urlSlug := by
  rw [List.map_map]
  apply List.map_congr_left
  intro t _
  simp only [Function.comp_apply]
  split <;> rfl

lemma mem_parentsOf_filter {es : List Edge} {p c slug q : String} :
    q ∈ parentsOf (es.filter (fun e => !(e.parentSlug == p && e.childSlug == c))) slug ↔
      (q ∈ parentsOf es slug ∧ ¬(q = p ∧ slug = c)) := by
  rw [mem_parentsOf, mem_parentsOf]
  constructor
  · rintro ⟨e, he, hc, hp⟩
    rcases List.mem_filter.mp he with ⟨he', hg⟩
    have hng : ¬(e.parentSlug = p ∧ e.childSlug = c) := by
      intro hh
      simp [hh.1, hh.2] at hg
    exact ⟨⟨e, he', hc, hp⟩, fun h => hng ⟨by rw [hp, h.1], by rw [hc, h.2]⟩⟩
  · rintro ⟨⟨e, he, hc, hp⟩, hnot⟩
    refine ⟨e, List.mem_filter.mpr ⟨he, ?_⟩, hc, hp⟩
    have hng : ¬(e.parentSlug = p ∧ e.childSlug = c) :=
      fun h => hnot ⟨by rw [← hp, h.1], by rw [← hc, h.2]⟩
    have h1 : (e.parentSlug == p && e.childSlug == c) = false := by
      cases hb1 : e.parentSlug == p with
      | false => simp
      | true =>
        cases hb2 : e.childSlug == c with
        | false => simp
        | true => exact absurd ⟨by simpa using hb1, by simpa using hb2⟩ hng
    simp [h1]

lemma wf_edges_filter {s : GraphState} (hwf : WF s) (g : Edge → Bool) :
    ((s.edges.filter g).map (fun e => (e.parentSlug, e.childSlug))).Nodup :=
  List.Nodup.sublist (List.Sublist.map _ (List.filter_sublist _)) hwf.2

lemma parentInv_edges_append_no_child {s : GraphState} {p c : String}
    (hnoc : ∀ t ∈ s.topics, t.urlSlug ≠ c) (hinv : ParentInv s) :
    ParentInv { s with edges := s.edges ++ [⟨p, c⟩] } := by
  intro t ht
  refine ⟨(hinv t ht).1, ?_⟩
  show t.parentSlugs.toFinset = (parentsOf (s.edges ++ [⟨p, c⟩]) t.urlSlug).toFinset
  rw [parentsOf_append]
  have hcc : c ≠ t.urlSlug := fun h => hnoc t ht h.symm
  have h0 : parentsOf [⟨p, c⟩] t.urlSlug = [] := by simp [parentsOf, hcc]
  rw [h0, List.append_nil]
  exact (hinv t ht).2

lemma parentInv_create_child {s : GraphState} {p c : String} {row : Topic}
    (hinv : ParentInv s)
    (hrow : s.topics.find? (fun t => t.urlSlug == c) = some row)
    (hpn : p ∉ row.parentSlugs) :
    ParentInv { s with
                edges := s.edges ++ [⟨p, c⟩],
                topics := s.topics.map (fun t =>
                  if t.urlSlug == c then { t with parentSlugs := row.parentSlugs ++ [p] }
                  else t) } := by
  have hrow_mem : row ∈ s.topics := List.mem_of_find?_eq_some hrow
  have hrow_slug : row.urlSlug = c := by simpa using List.find?_some hrow
  intro t' ht'
  have ht'' : t' ∈ s.topics.map (fun t =>
      if t.urlSlug == c then { t with parentSlugs := row.parentSlugs ++ [p] } else t) := ht'
  obtain ⟨t, ht, rfl⟩ := List.mem_map.mp ht''
  by_cases hc : t.urlSlug = c
  · rw [if_pos (by simp [hc])]
    constructor
    · show (row.parentSlugs ++ [p]).Nodup
      rw [List.nodup_append]
      refine ⟨(hinv row hrow_mem).1, List.nodup_singleton p, ?_⟩
      intro a ha hb
      rw [List.mem_singleton] at hb
      exact hpn (hb ▸ ha)
    · show (row.parentSlugs ++ [p]).toFinset =
        (parentsOf (s.edges ++ [⟨p, c⟩]) t.urlSlug).toFinset
      rw [hc, parentsOf_append, List.toFinset_append, List.toFinset_append]
      have h0 : parentsOf [⟨p, c⟩] c = [p] := by simp [parentsOf]
      rw [h0]
      have h2 := (hinv row hrow_mem).2
      rw [hrow_slug] at h2
      rw [h2]
  · rw [if_neg (by simp [hc])]
    refine ⟨(hinv t ht).1, ?_⟩
    show t.parentSlugs.toFinset = (parentsOf (s.edges ++ [⟨p, c⟩]) t.urlSlug).toFinset
    rw [parentsOf_append]
    have hcc : c ≠ t.urlSlug := fun h => hc h.symm
    have h0 : parentsOf [⟨p, c⟩] t.urlSlug = [] := by simp [parentsOf, hcc]
    rw [h0, List.append_nil]
    exact (hinv t ht).2

lemma parentInv_edges_filter_no_child {s : GraphState} {p c : String}
    (hnoc : ∀ t ∈ s.topics, t.urlSlug ≠ c) (hinv : ParentInv s) :
    ParentInv { s with
                edges := s.edges.filter (fun e => !(e.parentSlug == p && e.childSlug == c)) } := by
  intro t ht
  refine ⟨(hinv t ht).1, ?_⟩
  show t.parentSlugs.toFinset =
    (parentsOf (s.edges.filter (fun e => !(e.parentSlug == p && e.childSlug == c)))
      t.urlSlug).toFinset
  apply Finset.ext
  intro q
  rw [List.mem_toFinset, List.mem_toFinset, mem_parentsOf_filter]
  have hqm : q ∈ t.parentSlugs ↔ q ∈ parentsOf s.edges t.urlSlug := by
    rw [← List.mem_toFinset, (hinv t ht).2, List.mem_toFinset]
  rw [hqm]
  simp [hnoc t ht]

lemma parentInv_delete_child_mem {s : GraphState} {p c : String} {row : Topic}
    (hinv : ParentInv s)
    (hrow : s.topics.find? (fun t => t.urlSlug == c) = some row) :
    ParentInv { s with
                edges := s.edges.filter (fun e => !(e.parentSlug == p && e.childSlug == c)),
                topics := s.topics.map (fun t =>
                  if t.urlSlug == c then { t with parentSlugs := removeFirst row.parentSlugs p }
                  else t) } := by
  have hrow_mem : row ∈ s.topics := List.mem_of_find?_eq_some hrow
  have hrow_slug : row.urlSlug = c := by simpa using List.find?_some hrow
  have hrow_inv := hinv row hrow_mem
  have hrow_mem_iff : ∀ q, q ∈ row.parentSlugs ↔ q ∈ parentsOf s.edges c := by
    intro q
    rw [← List.mem_toFinset, hrow_inv.2, hrow_slug, List.mem_toFinset]
  intro t' ht'
  have ht'' : t' ∈ s.topics.map (fun t =>
      if t.urlSlug == c then { t with parentSlugs := removeFirst row.parentSlugs p } else t) := ht'
  obtain ⟨t, ht, rfl⟩ := List.mem_map.mp ht''
  by_cases hc : t.urlSlug = c
  · rw [if_pos (by simp [hc])]
    refine ⟨removeFirst_nodup hrow_inv.1, ?_⟩
    show (removeFirst row.parentSlugs p).toFinset =
      (parentsOf (s.edges.filter (fun e => !(e.parentSlug == p && e.childSlug == c)))
        t.urlSlug).toFinset
    apply Finset.ext
    intro q
    rw [List.mem_toFinset, List.mem_toFinset, hc, mem_parentsOf_filter]
    by_cases hqp : q = p
    · subst hqp
      constructor
      · intro hmem
        exact absurd hmem (not_mem_removeFirst_self hrow_inv.1)
      · rintro ⟨-, hno⟩
        exact absurd ⟨rfl, rfl⟩ hno
    · rw [mem_removeFirst_of_ne hqp, hrow_mem_iff q]
      simp [hqp]
  · rw [if_neg (by simp [hc])]
    refine ⟨(hinv t ht).1, ?_⟩
    show t.parentSlugs.toFinset =
      (parentsOf (s.edges.filter (fun e => !(e.parentSlug == p && e.childSlug == c)))
        t.urlSlug).toFinset
    apply Finset.ext
    intro q
    rw [List.mem_toFinset, List.mem_toFinset, mem_parentsOf_filter]
    have hqm : q ∈ t.parentSlugs ↔ q ∈ parentsOf s.edges t.urlSlug := by
      rw [← List.mem_toFinset, (hinv t ht).2, List.mem_toFinset]
    rw [hqm]
    simp [hc]

lemma parentInv_delete_child_not_mem {s : GraphState} {p c : String} {row : Topic}
    (hinv : ParentInv s)
    (hrow : s.topics.find? (fun t => t.urlSlug == c) = some row)
    (hpn : p ∉ row.parentSlugs) :
    ParentInv { s with
                edges := s.edges.filter (fun e => !(e.parentSlug == p && e.childSlug == c)) } := by
  have hrow_mem : row ∈ s.topics := List.mem_of_find?_eq_some hrow
  have hrow_slug : row.urlSlug = c := by simpa using List.find?_some hrow
  have hrow_mem_iff : ∀ r, r ∈ row.parentSlugs ↔ r ∈ parentsOf s.edges c := by
    intro r
    rw [← List.mem_toFinset, (hinv row hrow_mem).2, hrow_slug, List.mem_toFinset]
  intro t ht
  refine ⟨(hinv t ht).1, ?_⟩
  show t.parentSlugs.toFinset =
    (parentsOf (s.edges.filter (fun e => !(e.parentSlug == p && e.childSlug == c)))
      t.urlSlug).toFinset
  apply Finset.ext
  intro q
  rw [List.mem_toFinset, List.mem_toFinset, mem_parentsOf_filter]
  have hqm : q ∈ t.parentSlugs ↔ q ∈ parentsOf s.edges t.urlSlug := by
    rw [← List.mem_toFinset, (hinv t ht).2, List.mem_toFinset]
  rw [hqm]
  by_cases hc : t.urlSlug = c
  · constructor
    · intro hq
      refine ⟨hq, ?_⟩
      rintro ⟨hqp, -⟩
      rw [hc] at hq
      exact hpn (hqp ▸ (hrow_mem_iff q).mpr hq)
    · exact fun h => h.1
  · constructor
    · exact fun hq => ⟨hq, fun h => hc h.2⟩
    · exact fun h => h.1

lemma create_edge_preserves {s : GraphState} {d : SQLiteAdapter.EdgeCreate}
    (hwf : WF s) (hinv : ParentInv s) :
    WF (applyEdgeOp s (.create d)) ∧ ParentInv (applyEdgeOp s (.create d)) := by
  by_cases hdup : (SQLiteAdapter.get_edge s d.parentSlug d.childSlug).isSome
  · simp only [applyEdgeOp, create_edge_dup hdup]
    exact ⟨hwf, hinv⟩
  · have hge : SQLiteAdapter.get_edge s d.parentSlug d.childSlug = none :=
      Option.not_isSome_iff_eq_none.mp hdup
    have hnotmem : ∀ e ∈ s.edges, ¬(e.parentSlug = d.parentSlug ∧ e.childSlug = d.childSlug) := by
      intro e he
      have h1 := List.find?_eq_none.mp hge e he
      simpa using h1
    have hwfe : ((s.edges ++ [(⟨d.parentSlug, d.childSlug⟩ : Edge)]).map
        (fun e => (e.parentSlug, e.childSlug))).Nodup := by
      rw [List.map_append, List.nodup_append]
      refine ⟨hwf.2, by simp, ?_⟩
      intro a ha hb
      obtain ⟨e, he, hpair⟩ := List.mem_map.mp ha
      obtain ⟨e2, he2, hpair2⟩ := List.mem_map.mp hb
      rw [List.mem_singleton] at he2
      rw [he2] at hpair2
      rw [← hpair2] at hpair
      simp only [Prod.mk.injEq] at hpair
      exact hnotmem e he hpair
    cases hrow : s.topics.find? (fun t => t.urlSlug == d.childSlug) with
    | none =>
      have hnoc : ∀ t ∈ s.topics, t.urlSlug ≠ d.childSlug := by
        intro t ht
        have h1 := List.find?_eq_none.mp hrow t ht
        simpa using h1
      simp only [applyEdgeOp, create_edge_no_child hdup hrow]
      exact ⟨⟨hwf.1, hwfe⟩, parentInv_edges_append_no_child hnoc hinv⟩
    | some row =>
      have hrow_mem : row ∈ s.topics := List.mem_of_find?_eq_some hrow
      have hrow_slug : row.urlSlug = d.childSlug := by simpa using List.find?_some hrow
      by_cases hpmem : d.parentSlug ∈ row.parentSlugs
      · -- impossible: the derived list already holds the parent, so the edge existed
        exfalso
        have h2 := (hinv row hrow_mem).2
        rw [hrow_slug] at h2
        have hp' : d.parentSlug ∈ (parentsOf s.edges d.childSlug).toFinset := by
          rw [← h2]; exact List.mem_toFinset.mpr hpmem
        obtain ⟨e, he, hce, hpe⟩ := mem_parentsOf.mp (List.mem_toFinset.mp hp')
        exact hnotmem e he ⟨hpe, hce⟩
      · simp only [applyEdgeOp, create_edge_child_new hdup hrow hpmem]
        refine ⟨⟨?_, hwfe⟩, parentInv_create_child hinv hrow hpmem⟩
        show ((s.topics.map fun t => if t.urlSlug == d.childSlug then
          { t with parentSlugs := row.parentSlugs ++ [d.parentSlug] } else t).map
            Topic.urlSlug).Nodup
        rw [map_update_slugs]
        exact hwf.1

lemma delete_edge_preserves {s : GraphState} {p c : String}
    (hwf : WF s) (hinv : ParentInv s) :
    WF (applyEdgeOp s (.delete p c)) ∧ ParentInv (applyEdgeOp s (.delete p c)) := by
  have hwfe := wf_edges_filter hwf (fun e => !(e.parentSlug == p && e.childSlug == c))
  cases hrow : s.topics.find? (fun t => t.urlSlug == c) with
  | none =>
    have hnoc : ∀ t ∈ s.topics, t.urlSlug ≠ c := by
      intro t ht
      have h1 := List.find?_eq_none.mp hrow t ht
      simpa using h1
    simp only [applyEdgeOp, delete_edge_no_child hrow]
    exact ⟨⟨hwf.1, hwfe⟩, parentInv_edges_filter_no_child hnoc hinv⟩
  | some row =>
    by_cases hpmem : p ∈ row.parentSlugs
    · simp only [applyEdgeOp, delete_edge_child_mem hrow hpmem]
      refine ⟨⟨?_, hwfe⟩, parentInv_delete_child_mem hinv hrow⟩
      show ((s.topics.map fun t => if t.urlSlug == c then
        { t with parentSlugs := removeFirst row.parentSlugs p } else t).map Topic.urlSlug).Nodup
      rw [map_update_slugs]
      exact hwf.1
    · simp only [applyEdgeOp, delete_edge_child_not_mem hrow hpmem]
      exact ⟨⟨hwf.1, hwfe⟩, parentInv_delete_child_not_mem hinv hrow hpmem⟩

/-! ## Helper lemmas: the batch refinement -/

lemma runItems_cons {α : Type} (p : GraphState × SQLiteAdapter.BatchResult) (x : α)
    (xs : List α) (f : GraphState → α → Except ErrCode GraphState)
    (bump : SQLiteAdapter.BatchResult → SQLiteAdapter.BatchResult) :
    SQLiteAdapter.runItems p (x :: xs) f bump =
      SQLiteAdapter.runItems
        (match f p.1 x with | .ok s' => (s', bump p.2) | .error _ => p) xs f bump := rfl

lemma foldl_bestEffort_map {α : Type} (cfn : α → BatchSpec.BatchItem)
    (f : GraphState → α → Except ErrCode GraphState)
    (bump : SQLiteAdapter.BatchResult → SQLiteAdapter.BatchResult)
    (hf : ∀ st x, BatchSpec.applyItem st (cfn x) = f st x)
    (hb : ∀ x r, BatchSpec.incCat (cfn x) r = bump r)
    (xs : List α) (p : GraphState × SQLiteAdapter.BatchResult) :
    (xs.map cfn).foldl BatchSpec.bestEffortStep p = SQLiteAdapter.runItems p xs f bump := by
  induction xs generalizing p with
  | nil => rfl
  | cons x xs ih =>
    rw [List.map_cons, List.foldl_cons, runItems_cons]
    have hstep : BatchSpec.bestEffortStep p (cfn x) =
        (match f p.1 x with | .ok s' => (s', bump p.2) | .error _ => p) := by
      unfold BatchSpec.bestEffortStep
      rw [hf, hb]
    rw [hstep]
    exact ih _

/-! ## Helper lemmas: `delete_topic` -/

lemma delete_topic_eq (s : GraphState) (slug : String) :
    SQLiteAdapter.delete_topic s slug =
      { s with
        edges := s.edges.filter (fun e => !(e.parentSlug == slug || e.childSlug == slug)),
        topics := (s.topics.map (fun t =>
          if likeContains t.parentSlugs slug && decide (slug ∈ t.parentSlugs) then
            { t with parentSlugs := removeFirst t.parentSlugs slug }
          else t)).filter (fun t => !(t.urlSlug == slug)) } := rfl

lemma get_topic_delete_topic_self {s : GraphState} {slug : String} :
    SQLiteAdapter.get_topic (SQLiteAdapter.delete_topic s slug) slug = none := by
  rw [delete_topic_eq]
  apply List.find?_eq_none.mpr
  intro t ht
  have h1 := (List.mem_filter.mp ht).2
  simpa using h1

/-! ## Helper lemmas: deletes of absent rows are no-ops -/

lemma delete_edge_absent {s : GraphState} {p c : String}
    (he : SQLiteAdapter.get_edge s p c = none)
    (hpc : ∀ t ∈ s.topics, t.urlSlug = c → p ∉ t.parentSlugs) :
    SQLiteAdapter.delete_edge s p c = s := by
  have hfilter : s.edges.filter (fun e => !(e.parentSlug == p && e.childSlug == c)) = s.edges := by
    apply List.filter_eq_self.mpr
    intro e hee
    have h1 := List.find?_eq_none.mp he e hee
    cases hx : (e.parentSlug == p && e.childSlug == c) with
    | true => exact absurd hx h1
    | false => rfl
  cases hfind : s.topics.find? (fun t => t.urlSlug == c) with
  | none => rw [delete_edge_no_child hfind, hfilter]
  | some row =>
    have hrow_mem : row ∈ s.topics := List.mem_of_find?_eq_some hfind
    have hrow_slug : row.urlSlug = c := by simpa using List.find?_some hfind
    rw [delete_edge_child_not_mem hfind (hpc row hrow_mem hrow_slug), hfilter]

lemma delete_topic_absent {s : GraphState} {slug : String}
    (ht : SQLiteAdapter.get_topic s slug = none)
    (hts : ∀ t ∈ s.topics, slug ∉ t.parentSlugs)
    (hes : ∀ e ∈ s.edges, e.parentSlug ≠ slug ∧ e.childSlug ≠ slug) :
    SQLiteAdapter.delete_topic s slug = s := by
  rw [delete_topic_eq]
  have h1 : s.edges.filter (fun e => !(e.parentSlug == slug || e.childSlug == slug)) = s.edges := by
    apply List.filter_eq_self.mpr
    intro e he
    have h2 := hes e he
    simp [h2.1, h2.2]
  have h2 : s.topics.map (fun t =>
      if likeContains t.parentSlugs slug && decide (slug ∈ t.parentSlugs) then
        { t with parentSlugs := removeFirst t.parentSlugs slug }
      else t) = s.topics := by
    have hcong : ∀ t ∈ s.topics, (fun t =>
        if likeContains t.parentSlugs slug && decide (slug ∈ t.parentSlugs) then
          { t with parentSlugs := removeFirst t.parentSlugs slug }
        else t) t = id t := by
      intro t htm
      have hmem := hts t htm
      simp [hmem]
    rw [List.map_congr_left hcong, List.map_id]
  rw [h1, h2]
  have h3 : s.topics.filter (fun t => !(t.urlSlug == slug)) = s.topics := by
    apply List.filter_eq_self.mpr
    intro t htm
    have h4 := List.find?_eq_none.mp ht t htm
    cases hx : (t.urlSlug == slug) with
    | true => exact absurd hx h4
    | false => rfl
  rw [h3]

lemma delete_course_absent {s : GraphState} {cid : Nat}
    (hc : SQLiteAdapter.get_course s cid = none) :
    SQLiteAdapter.delete_course s cid = s := by
  unfold SQLiteAdapter.delete_course
  have h1 : s.courses.filter (fun co => !(co.courseId == cid)) = s.courses := by
    apply List.filter_eq_self.mpr
    intro co hco
    have h2 := List.find?_eq_none.mp hc co hco
    cases hx : (co.courseId == cid) with
    | true => exact absurd hx h2
    | false => rfl
  rw [h1]

/-! ## Helper lemmas: `create_topic` and `update_topic` -/

lemma create_topic_ok {s : GraphState} {d : SQLiteAdapter.TopicCreate}
    (h : SQLiteAdapter.get_topic s d.urlSlug = none) :
    SQLiteAdapter.create_topic s d =
      .ok { s with topics := s.topics ++ [topicOfCreate d] } := by
  unfold SQLiteAdapter.create_topic
  rw [if_neg (by rw [h]; simp)]
  rfl

lemma get_topic_append_new {s : GraphState} {d : SQLiteAdapter.TopicCreate}
    (h : SQLiteAdapter.get_topic s d.urlSlug = none) :
    SQLiteAdapter.get_topic { s with topics := s.topics ++ [topicOfCreate d] } d.urlSlug =
      some (topicOfCreate d) := by
  show (s.topics ++ [topicOfCreate d]).find? (fun t => t.urlSlug == d.urlSlug) =
    some (topicOfCreate d)
  have h' : s.topics.find? (fun t => t.urlSlug == d.urlSlug) = none := h
  rw [List.find?_append, h']
  simp [topicOfCreate]

lemma update_topic_ok {s : GraphState} {slug : String} {d : SQLiteAdapter.TopicUpdate}
    {t : Topic} (ht : SQLiteAdapter.get_topic s slug = some t) :
    SQLiteAdapter.update_topic s slug d =
      .ok { s with topics := s.topics.map (fun u =>
        if u.urlSlug == slug then applyTopicUpdate u d (updatedHasContent d t) else u) } := by
  unfold SQLiteAdapter.update_topic
  rw [ht]
  cases hh : d.contentHtml with
  | some v =>
    cases htx : d.contentText with
    | some w =>
      simp [SQLiteAdapter.mergedField, hh, htx, applyTopicUpdate, updatedHasContent,
        mergedHtml, mergedText]
      rfl
    | none =>
      simp [SQLiteAdapter.mergedField, hh, htx, applyTopicUpdate, updatedHasContent,
        mergedHtml, mergedText]
      rfl
  | none =>
    cases htx : d.contentText with
    | some w =>
      simp [SQLiteAdapter.mergedField, hh, htx, applyTopicUpdate, updatedHasContent,
        mergedHtml, mergedText]
      rfl
    | none =>
      simp [SQLiteAdapter.mergedField, hh, htx, applyTopicUpdate, updatedHasContent,
        mergedHtml, mergedText]
      rfl

lemma edge_ops_preserve {s : GraphState} {ops : List EdgeOp}
    (h : WF s ∧ ParentInv s) :
    WF (applyEdgeOps s ops) ∧ ParentInv (applyEdgeOps s ops) := by
  induction ops generalizing s with
  | nil => exact h
  | cons op rest ih =>
    have hstep : WF (applyEdgeOp s op) ∧ ParentInv (applyEdgeOp s op) := by
      cases op with
      | create d => exact create_edge_preserves h.1 h.2
      | delete p c => exact delete_edge_preserves h.1 h.2
    exact ih hstep

/-! ## The claims -/

/-- C1: starting from a well-formed store whose topics satisfy the
`parentSlugs` invariant, after any sequence of adapter edge creations and
deletions completes, every topic's `parentSlugs` is duplicate-free and
equals, as a set, the `parentSlug`s of the edges whose `childSlug` is that
topic's slug. -/
theorem parentSlugs_consistent_after_edge_ops (s : GraphState) (ops : List EdgeOp)
    (hwf : WF s) (hinv : ParentInv s) :
    ∀ t ∈ (applyEdgeOps s ops).topics, t.parentSlugs.Nodup ∧
      t.parentSlugs.toFinset = (parentsOf (applyEdgeOps s ops).edges t.urlSlug).toFinset :=
  (edge_ops_preserve ⟨hwf, hinv⟩).2

theorem parentSlugs_consistent_witness :
    tInvB.parentSlugs.Nodup ∧
      tInvB.parentSlugs.toFinset =
        (parentsOf (applyEdgeOps sInv opsInv).edges tInvB.urlSlug).toFinset :=
  parentSlugs_consistent_after_edge_ops sInv opsInv (by decide) (by decide) tInvB (by decide)

/-- C2 counterexample: deleting the topic whose slug contains a double
quote removes the topic and its edges, but the `LIKE '%"slug"%'` prefilter
misses the stored JSON `["a\"b"]`, so the slug survives inside another
topic's `parentSlugs`. -/
theorem delete_topic_quoted_slug_cex :
    ∃ t ∈ (SQLiteAdapter.delete_topic sQuote quoteSlug).topics,
      quoteSlug ∈ t.parentSlugs := by
  decide

/-- C2 (amended): for a slug of plain printable ASCII without quote or
backslash characters, and duplicate-free stored `parentSlugs` lists (the
maintained invariant), deleting a topic removes every edge touching the
slug, removes the slug from every remaining topic's `parentSlugs`, removes
the topic, and a subsequent get/prerequisites/dependents query for it
returns `TOPIC_NOT_FOUND`. -/
theorem delete_topic_cleanup (s : GraphState) (slug : String)
    (hplain : PlainSlug slug)
    (hnd : ∀ t ∈ s.topics, t.parentSlugs.Nodup) :
    (∀ e ∈ (SQLiteAdapter.delete_topic s slug).edges,
      e.parentSlug ≠ slug ∧ e.childSlug ≠ slug) ∧
    (∀ t ∈ (SQLiteAdapter.delete_topic s slug).topics,
      t.urlSlug ≠ slug ∧ slug ∉ t.parentSlugs) ∧
    routes.get_topic (SQLiteAdapter.delete_topic s slug) slug = .error .TOPIC_NOT_FOUND ∧
    routes.get_topic_prerequisites (SQLiteAdapter.delete_topic s slug) slug =
      .error .TOPIC_NOT_FOUND ∧
    routes.get_topic_dependents (SQLiteAdapter.delete_topic s slug) slug =
      .error .TOPIC_NOT_FOUND := by
  have hnone : SQLiteAdapter.get_topic (SQLiteAdapter.delete_topic s slug) slug = none :=
    get_topic_delete_topic_self
  refine ⟨?_, ?_, ?_, ?_, ?_⟩
  · intro e he
    rw [delete_topic_eq] at he
    have h1 := (List.mem_filter.mp he).2
    simpa using h1
  · intro t ht
    rw [delete_topic_eq] at ht
    rcases List.mem_filter.mp ht with ⟨ht1, hne⟩
    constructor
    · simpa using hne
    · obtain ⟨t0, ht0, rfl⟩ := List.mem_map.mp ht1
      by_cases hcond : (likeContains t0.parentSlugs slug && decide (slug ∈ t0.parentSlugs)) = true
      · rw [if_pos hcond]
        show slug ∉ removeFirst t0.parentSlugs slug
        exact not_mem_removeFirst_self (hnd t0 ht0)
      · rw [if_neg hcond]
        show slug ∉ t0.parentSlugs
        intro hmem
        apply hcond
        rw [Bool.and_eq_true]
        exact ⟨likeContains_of_mem hplain hmem, decide_eq_true hmem⟩
  · unfold routes.get_topic
    rw [hnone]
  · unfold routes.get_topic_prerequisites
    rw [hnone]
  · unfold routes.get_topic_dependents
    rw [hnone]

theorem delete_topic_cleanup_witness :
    routes.get_topic (SQLiteAdapter.delete_topic sPlainDel "a") "a" =
      .error .TOPIC_NOT_FOUND ∧
    (SQLiteAdapter.delete_topic sPlainDel "a").topics.map Topic.parentSlugs = [[]] :=
  ⟨(delete_topic_cleanup sPlainDel "a" (by decide) (by decide)).2.2.1, by decide⟩

/-- C3: `batch_update` equals the spec-side model: the batch flattened to
one item list in the fixed order — deletes (edges, topics, courses), then
creates (courses, topics, edges), then updates (courses, topics) — and run
best-effort, every item failure caught and skipped, accumulating only the
per-category success counts. -/
theorem batch_update_follows_fixed_order (s : GraphState)
    (ops : SQLiteAdapter.BatchOperations) :
    SQLiteAdapter.batch_update s ops = BatchSpec.batchUpdateSpec s ops := by
  rw [BatchSpec.batchUpdateSpec, BatchSpec.specOrder]
  rw [List.foldl_append, List.foldl_append, List.foldl_append, List.foldl_append,
    List.foldl_append, List.foldl_append, List.foldl_append]
  rw [foldl_bestEffort_map BatchSpec.BatchItem.edgeDel
    (fun st d => .ok (SQLiteAdapter.delete_edge st d.parentSlug d.childSlug))
    (fun r => { r with edgesDeleted := r.edgesDeleted + 1 }) (fun _ _ => rfl) (fun _ _ => rfl)]
  rw [foldl_bestEffort_map BatchSpec.BatchItem.topicDel
    (fun st sl => .ok (SQLiteAdapter.delete_topic st sl))
    (fun r => { r with topicsDeleted := r.topicsDeleted + 1 }) (fun _ _ => rfl) (fun _ _ => rfl)]
  rw [foldl_bestEffort_map BatchSpec.BatchItem.courseDel
    (fun st cid => .ok (SQLiteAdapter.delete_course st cid))
    (fun r => { r with coursesDeleted := r.coursesDeleted + 1 }) (fun _ _ => rfl) (fun _ _ => rfl)]
  rw [foldl_bestEffort_map BatchSpec.BatchItem.courseCre
    (fun st d => .ok (SQLiteAdapter.create_course st d))
    (fun r => { r with coursesCreated := r.coursesCreated + 1 }) (fun _ _ => rfl) (fun _ _ => rfl)]
  rw [foldl_bestEffort_map BatchSpec.BatchItem.topicCre
    (fun st d => SQLiteAdapter.create_topic st d)
    (fun r => { r with topicsCreated := r.topicsCreated + 1 }) (fun _ _ => rfl) (fun _ _ => rfl)]
  rw [foldl_bestEffort_map BatchSpec.BatchItem.edgeCre
    (fun st d => SQLiteAdapter.create_edge st d)
    (fun r => { r with edgesCreated := r.edgesCreated + 1 }) (fun _ _ => rfl) (fun _ _ => rfl)]
  rw [foldl_bestEffort_map BatchSpec.BatchItem.courseUpd
    (fun st u => .ok (SQLiteAdapter.update_course st u.courseId u.data))
    (fun r => { r with coursesUpdated := r.coursesUpdated + 1 }) (fun _ _ => rfl) (fun _ _ => rfl)]
  rw [foldl_bestEffort_map BatchSpec.BatchItem.topicUpd
    (fun st u => SQLiteAdapter.update_topic st u.urlSlug u.data)
    (fun r => { r with topicsUpdated := r.topicsUpdated + 1 }) (fun _ _ => rfl) (fun _ _ => rfl)]
  rfl

/-- C4 counterexample: the bootstrap's default graph is also readonly, and
the route checks readonly first, so deleting the default graph fails with
`READONLY_GRAPH`, not `CANNOT_DELETE_DEFAULT`. -/
theorem delete_default_graph_cex :
    gDefault.isDefault = true ∧
    SQLiteAdapter.get_graph dbDefault "g" = some gDefault ∧
    routes.delete_graph dbDefault "g" = .error .READONLY_GRAPH ∧
    routes.delete_graph dbDefault "g" ≠ .error .CANNOT_DELETE_DEFAULT := by
  refine ⟨rfl, by decide, rfl, ?_⟩
  intro h
  exact ErrCode.noConfusion (Except.error.inj h)

/-- C4 (amended): deleting a graph fails with `READONLY_GRAPH` when the
graph is readonly (checked first, so it masks the default-graph guard for
the readonly default graph), fails with `CANNOT_DELETE_DEFAULT` when the
graph is default but not readonly; for a non-default, non-readonly graph
the DELETE raises (an IntegrityError the handler does not catch) when
another graph references it as its copy source, deleting nothing, and
otherwise removes the graph with every owned course, topic and edge while
keeping other graphs' rows. -/
theorem delete_graph_spec (db : DB) (gid : String) (g : GraphMeta)
    (hfind : SQLiteAdapter.get_graph db gid = some g) :
    (g.isReadonly = true → routes.delete_graph db gid = .error .READONLY_GRAPH) ∧
    (g.isReadonly = false → g.isDefault = true →
      routes.delete_graph db gid = .error .CANNOT_DELETE_DEFAULT) ∧
    (g.isReadonly = false → g.isDefault = false →
      (∃ g' ∈ db.graphs, g'.id ≠ gid ∧ g'.sourceGraphId = some gid) →
      routes.delete_graph db gid = .error .INTEGRITY_ERROR) ∧
    (g.isReadonly = false → g.isDefault = false →
      (∀ g' ∈ db.graphs, g'.id ≠ gid → g'.sourceGraphId ≠ some gid) →
      routes.delete_graph db gid = .ok (SQLiteAdapter.deleteGraphRows db gid) ∧
      (∀ x ∈ (SQLiteAdapter.deleteGraphRows db gid).graphs, x.id ≠ gid) ∧
      (∀ r ∈ (SQLiteAdapter.deleteGraphRows db gid).courses, r.1 ≠ gid) ∧
      (∀ r ∈ (SQLiteAdapter.deleteGraphRows db gid).topics, r.1 ≠ gid) ∧
      (∀ r ∈ (SQLiteAdapter.deleteGraphRows db gid).edges, r.1 ≠ gid) ∧
      (∀ r ∈ db.courses, r.1 ≠ gid → r ∈ (SQLiteAdapter.deleteGraphRows db gid).courses) ∧
      (∀ r ∈ db.topics, r.1 ≠ gid → r ∈ (SQLiteAdapter.deleteGraphRows db gid).topics) ∧
      (∀ r ∈ db.edges, r.1 ≠ gid → r ∈ (SQLiteAdapter.deleteGraphRows db gid).edges)) := by
  refine ⟨?_, ?_, ?_, ?_⟩
  · intro hr
    simp [routes.delete_graph, hfind, hr]
  · intro hr hd
    simp [routes.delete_graph, hfind, hr, hd]
  · rintro hr hd ⟨g', hg', hne, hsrc⟩
    have hany : db.graphs.any
        (fun x => !(x.id == gid) && decide (x.sourceGraphId = some gid)) = true :=
      List.any_eq_true.mpr ⟨g', hg', by simp [hne, hsrc]⟩
    simp [routes.delete_graph, hfind, hr, hd, SQLiteAdapter.delete_graph, hany]
  · intro hr hd hnoref
    have hany : db.graphs.any
        (fun x => !(x.id == gid) && decide (x.sourceGraphId = some gid)) = false := by
      rw [List.any_eq_false]
      intro g' hg'
      by_cases hid : g'.id = gid
      · simp [hid]
      · simp [hid, hnoref g' hg' hid]
    refine ⟨by simp [routes.delete_graph, hfind, hr, hd, SQLiteAdapter.delete_graph, hany],
      ?_, ?_, ?_, ?_, ?_, ?_, ?_⟩
    · intro x hx
      have h1 := (List.mem_filter.mp hx).2
      simpa using h1
    · intro r hrm
      have h1 := (List.mem_filter.mp hrm).2
      simpa using h1
    · intro r hrm
      have h1 := (List.mem_filter.mp hrm).2
      simpa using h1
    · intro r hrm
      have h1 := (List.mem_filter.mp hrm).2
      simpa using h1
    · intro r hrm hne
      exact List.mem_filter.mpr ⟨hrm, by simp [hne]⟩
    · intro r hrm hne
      exact List.mem_filter.mpr ⟨hrm, by simp [hne]⟩
    · intro r hrm hne
      exact List.mem_filter.mpr ⟨hrm, by simp [hne]⟩

theorem delete_graph_spec_witness :
    routes.delete_graph dbDel "g1" = .ok (SQLiteAdapter.deleteGraphRows dbDel "g1") ∧
    ("g0", (⟨1, "Base", "#000000"⟩ : Course)) ∈ (SQLiteAdapter.deleteGraphRows dbDel "g1").courses ∧
    routes.delete_graph dbFk "src" = .error .INTEGRITY_ERROR :=
  ⟨((delete_graph_spec dbDel "g1" gScratch (by decide)).2.2.2 rfl rfl (by decide)).1,
   ((delete_graph_spec dbDel "g1" gScratch (by decide)).2.2.2 rfl rfl (by decide)).2.2.2.2.2.1
     ("g0", ⟨1, "Base", "#000000"⟩) (by decide) (by decide),
   (delete_graph_spec dbFk "src" ⟨"src", "Source", none, false, false, none⟩
     (by decide)).2.2.1 rfl rfl
     ⟨⟨"cp", "Copy", none, false, false, some "src"⟩, by decide, by decide, by decide⟩⟩

/-- C5: the edge-creation route fails `VALIDATION_ERROR` on a self-loop,
`TOPIC_NOT_FOUND` when either endpoint topic is absent, `DUPLICATE_ENTRY`
when the edge already exists, and on success stores the edge and appends
the parent to the child topic's `parentSlugs` only when not already
present. -/
theorem create_edge_route_spec (s : GraphState) (d : SQLiteAdapter.EdgeCreate) :
    (d.parentSlug = d.childSlug → routes.create_edge s d = .error .VALIDATION_ERROR) ∧
    (d.parentSlug ≠ d.childSlug →
      (SQLiteAdapter.get_topic s d.parentSlug = none ∨
       SQLiteAdapter.get_topic s d.childSlug = none) →
      routes.create_edge s d = .error .TOPIC_NOT_FOUND) ∧
    (∀ tp tc, d.parentSlug ≠ d.childSlug →
      SQLiteAdapter.get_topic s d.parentSlug = some tp →
      SQLiteAdapter.get_topic s d.childSlug = some tc →
      (SQLiteAdapter.get_edge s d.parentSlug d.childSlug).isSome →
      routes.create_edge s d = .error .DUPLICATE_ENTRY) ∧
    (∀ tp tc s', d.parentSlug ≠ d.childSlug →
      SQLiteAdapter.get_topic s d.parentSlug = some tp →
      SQLiteAdapter.get_topic s d.childSlug = some tc →
      SQLiteAdapter.get_edge s d.parentSlug d.childSlug = none →
      routes.create_edge s d = .ok s' →
      s'.edges = s.edges ++ [⟨d.parentSlug, d.childSlug⟩] ∧
      SQLiteAdapter.get_topic s' d.childSlug =
        some { tc with parentSlugs :=
          if d.parentSlug ∈ tc.parentSlugs then tc.parentSlugs
          else tc.parentSlugs ++ [d.parentSlug] }) := by
  refine ⟨?_, ?_, ?_, ?_⟩
  · intro heq
    unfold routes.create_edge
    rw [if_pos (by simp [heq])]
  · intro hne hor
    unfold routes.create_edge
    rw [if_neg (by simp [hne])]
    rcases hor with hp | hc
    · rw [if_pos (by rw [hp]; rfl)]
    · by_cases hp2 : (SQLiteAdapter.get_topic s d.parentSlug).isNone = true
      · rw [if_pos hp2]
      · rw [if_neg hp2, if_pos (by rw [hc]; rfl)]
  · intro tp tc hne hp hc hdup
    unfold routes.create_edge
    rw [if_neg (by simp [hne]), if_neg (by rw [hp]; simp), if_neg (by rw [hc]; simp),
      if_pos hdup]
  · intro tp tc s' hne hp hc hge hok
    unfold routes.create_edge at hok
    rw [if_neg (by simp [hne]), if_neg (by rw [hp]; simp), if_neg (by rw [hc]; simp),
      if_neg (by rw [hge]; simp)] at hok
    have hc' : s.topics.find? (fun t => t.urlSlug == d.childSlug) = some tc := hc
    have hgeb : ¬(SQLiteAdapter.get_edge s d.parentSlug d.childSlug).isSome = true := by
      rw [hge]; simp
    have htc_slug : tc.urlSlug = d.childSlug := by simpa using List.find?_some hc'
    by_cases hpm : d.parentSlug ∈ tc.parentSlugs
    · rw [create_edge_child_mem hgeb hc' hpm] at hok
      have hs := Except.ok.inj hok
      constructor
      · rw [← hs]
      · rw [← hs, if_pos hpm]
        exact hc
    · rw [create_edge_child_new hgeb hc' hpm] at hok
      have hs := Except.ok.inj hok
      constructor
      · rw [← hs]
      · rw [← hs, if_neg hpm]
        show (s.topics.map (fun t => if t.urlSlug == d.childSlug then
            { t with parentSlugs := tc.parentSlugs ++ [d.parentSlug] } else t)).find?
            (fun t => t.urlSlug == d.childSlug) =
          some { tc with parentSlugs := tc.parentSlugs ++ [d.parentSlug] }
        rw [find?_map_slug (by intro u; split <;> rfl)]
        rw [hc', Option.map_some']
        rw [if_pos (by simp [htc_slug])]

theorem create_edge_route_spec_witness :
    routes.create_edge sRoute ⟨"a", "b"⟩ = .ok sRouteAfter ∧
    sRouteAfter.edges = sRoute.edges ++ [⟨"a", "b"⟩] ∧
    SQLiteAdapter.get_topic sRouteAfter "b" =
      some { tRouteB with parentSlugs :=
        if "a" ∈ tRouteB.parentSlugs then tRouteB.parentSlugs
        else tRouteB.parentSlugs ++ ["a"] } := by
  have hok : routes.create_edge sRoute ⟨"a", "b"⟩ = .ok sRouteAfter := by rfl
  have h := (create_edge_route_spec sRoute ⟨"a", "b"⟩).2.2.2
    ⟨"a", "A", 1, [], none, none, false⟩ tRouteB sRouteAfter
    (by decide) (by decide) (by decide) (by decide) hok
  exact ⟨hok, h.1, h.2⟩

/-- C6 counterexample: the prerequisite lookup runs `SELECT ... WHERE
url_slug IN (...)` without ORDER BY, served through the slug index by
iterating the sorted `IN` values, so topic `c` with
`parentSlugs = ["b", "a"]` gets its prerequisites back as `[a, b]` — not
the `parentSlugs` order. -/
theorem prerequisites_order_cex :
    SQLiteAdapter.get_topic sPrereq "c" = some tPrereqC ∧
    tPrereqC.parentSlugs = ["b", "a"] ∧
    (SQLiteAdapter.get_topic_prerequisites sPrereq "c").map Topic.urlSlug = ["a", "b"] ∧
    (SQLiteAdapter.get_topic_prerequisites sPrereq "c").map Topic.urlSlug ≠
      tPrereqC.parentSlugs := by
  decide

/-- C6 (amended): for a topic with non-empty `parentSlugs` in a store
with unique slugs, the prerequisite lookup returns exactly the stored
topics whose slug occurs in `parentSlugs`; no particular order is
guaranteed by the code — in particular not the `parentSlugs` order, since
the SELECT carries no ORDER BY. -/
theorem prerequisites_spec (s : GraphState) (slug : String) (t : Topic)
    (hwf : (s.topics.map Topic.urlSlug).Nodup)
    (ht : SQLiteAdapter.get_topic s slug = some t) (hne : t.parentSlugs ≠ []) :
    ∀ u, u ∈ SQLiteAdapter.get_topic_prerequisites s slug ↔
      (u ∈ s.topics ∧ u.urlSlug ∈ t.parentSlugs) := by
  have heq : SQLiteAdapter.get_topic_prerequisites s slug =
      (sortedInValues t.parentSlugs).filterMap
        (fun ps => s.topics.find? (fun u => u.urlSlug == ps)) := by
    simp [SQLiteAdapter.get_topic_prerequisites, ht, List.isEmpty_iff, hne]
  intro u
  rw [heq, List.mem_filterMap]
  constructor
  · rintro ⟨ps, hps, hfind⟩
    have hu : u ∈ s.topics := List.mem_of_find?_eq_some hfind
    have huslug : u.urlSlug = ps := by simpa using List.find?_some hfind
    refine ⟨hu, ?_⟩
    rw [huslug]
    exact mem_sortedInValues.mp hps
  · rintro ⟨hu, hslug⟩
    exact ⟨u.urlSlug, mem_sortedInValues.mpr hslug, find_unique_slug hwf hu rfl⟩

theorem prerequisites_spec_witness :
    tPrereqA ∈ SQLiteAdapter.get_topic_prerequisites sPrereq "c" ↔
      (tPrereqA ∈ sPrereq.topics ∧ tPrereqA.urlSlug ∈ tPrereqC.parentSlugs) :=
  prerequisites_spec sPrereq "c" tPrereqC (by decide) (by decide) (by decide) tPrereqA

/-- C7 counterexample: the batch edge-creation path calls the adapter
directly with no validation, storing a self-loop edge `a → a` and an edge
`p → q` with both endpoints absent. -/
theorem batch_edge_validation_cex :
    (∃ e ∈ (SQLiteAdapter.batch_update sBatchVal opsBatchVal).1.edges,
      e.parentSlug = e.childSlug) ∧
    (∃ e ∈ (SQLiteAdapter.batch_update sBatchVal opsBatchVal).1.edges,
      SQLiteAdapter.get_topic sBatchVal e.parentSlug = none ∧
      SQLiteAdapter.get_topic sBatchVal e.childSlug = none) := by
  decide

/-- C7 (amended): an edge created through the route satisfies
`parentSlug ≠ childSlug` and both endpoint topics existed at creation
time; the batch path performs no such validation. -/
theorem route_create_edge_validates (s : GraphState) (d : SQLiteAdapter.EdgeCreate)
    (s' : GraphState) (h : routes.create_edge s d = .ok s') :
    d.parentSlug ≠ d.childSlug ∧
    (SQLiteAdapter.get_topic s d.parentSlug).isSome = true ∧
    (SQLiteAdapter.get_topic s d.childSlug).isSome = true ∧
    s'.edges = s.edges ++ [⟨d.parentSlug, d.childSlug⟩] := by
  unfold routes.create_edge at h
  by_cases h1 : (d.parentSlug == d.childSlug) = true
  · rw [if_pos h1] at h; simp at h
  · rw [if_neg h1] at h
    by_cases h2 : (SQLiteAdapter.get_topic s d.parentSlug).isNone = true
    · rw [if_pos h2] at h; simp at h
    · rw [if_neg h2] at h
      by_cases h3 : (SQLiteAdapter.get_topic s d.childSlug).isNone = true
      · rw [if_pos h3] at h; simp at h
      · rw [if_neg h3] at h
        by_cases h4 : (SQLiteAdapter.get_edge s d.parentSlug d.childSlug).isSome = true
        · rw [if_pos h4] at h; simp at h
        · rw [if_neg h4] at h
          refine ⟨by simpa using h1, ?_, ?_, ?_⟩
          · cases hx : SQLiteAdapter.get_topic s d.parentSlug with
            | none => exact absurd (by rw [hx]; rfl) h2
            | some t => rfl
          · cases hx : SQLiteAdapter.get_topic s d.childSlug with
            | none => exact absurd (by rw [hx]; rfl) h3
            | some t => rfl
          · cases hrow : s.topics.find? (fun t => t.urlSlug == d.childSlug) with
            | none =>
              rw [create_edge_no_child h4 hrow] at h
              rw [← Except.ok.inj h]
            | some row =>
              by_cases hpm : d.parentSlug ∈ row.parentSlugs
              · rw [create_edge_child_mem h4 hrow hpm] at h
                rw [← Except.ok.inj h]
              · rw [create_edge_child_new h4 hrow hpm] at h
                rw [← Except.ok.inj h]

theorem route_create_edge_validates_witness :
    ("a" : String) ≠ "b" ∧
    (SQLiteAdapter.get_topic sRoute "a").isSome = true ∧
    (SQLiteAdapter.get_topic sRoute "b").isSome = true ∧
    sRouteAfter.edges = sRoute.edges ++ [⟨"a", "b"⟩] :=
  route_create_edge_validates sRoute ⟨"a", "b"⟩ sRouteAfter (by rfl)

/-- C8: after a create, the stored topic carries the given content fields
and `hasContent` is true iff one of them is non-empty (Python truthiness);
after an update of an existing topic, the stored topic carries the merged
old-or-new content fields and `hasContent` is recomputed from them, even
when no content field was supplied. -/
theorem hasContent_recomputed (s : GraphState) :
    (∀ d : SQLiteAdapter.TopicCreate, SQLiteAdapter.get_topic s d.urlSlug = none →
      SQLiteAdapter.create_topic s d =
        .ok { s with topics := s.topics ++ [topicOfCreate d] } ∧
      SQLiteAdapter.get_topic { s with topics := s.topics ++ [topicOfCreate d] } d.urlSlug =
        some (topicOfCreate d) ∧
      (topicOfCreate d).contentHtml = d.contentHtml ∧
      (topicOfCreate d).contentText = d.contentText ∧
      ((topicOfCreate d).hasContent = true ↔
        (strTruthy (topicOfCreate d).contentHtml ||
         strTruthy (topicOfCreate d).contentText) = true)) ∧
    (∀ slug d t, SQLiteAdapter.get_topic s slug = some t →
      SQLiteAdapter.update_topic s slug d =
        .ok { s with topics := s.topics.map (fun u =>
          if u.urlSlug == slug then applyTopicUpdate u d (updatedHasContent d t) else u) } ∧
      SQLiteAdapter.get_topic { s with topics := s.topics.map (fun u =>
          if u.urlSlug == slug then applyTopicUpdate u d (updatedHasContent d t) else u) }
        slug = some (applyTopicUpdate t d (updatedHasContent d t)) ∧
      (applyTopicUpdate t d (updatedHasContent d t)).contentHtml = mergedHtml d t ∧
      (applyTopicUpdate t d (updatedHasContent d t)).contentText = mergedText d t ∧
      ((applyTopicUpdate t d (updatedHasContent d t)).hasContent = true ↔
        (strTruthy (applyTopicUpdate t d (updatedHasContent d t)).contentHtml ||
         strTruthy (applyTopicUpdate t d (updatedHasContent d t)).contentText) = true)) := by
  constructor
  · intro d h
    refine ⟨create_topic_ok h, get_topic_append_new h, rfl, rfl, Iff.rfl⟩
  · intro slug d t ht
    refine ⟨update_topic_ok ht, ?_, rfl, rfl, Iff.rfl⟩
    show (s.topics.map (fun u =>
        if u.urlSlug == slug then applyTopicUpdate u d (updatedHasContent d t) else u)).find?
        (fun u => u.urlSlug == slug) = some (applyTopicUpdate t d (updatedHasContent d t))
    rw [find?_map_slug (by intro u; split <;> rfl)]
    have ht' : s.topics.find? (fun u => u.urlSlug == slug) = some t := ht
    rw [ht', Option.map_some']
    have hts : t.urlSlug = slug := by simpa using List.find?_some ht'
    rw [if_pos (by simp [hts])]

theorem hasContent_recomputed_witness :
    SQLiteAdapter.create_topic sEmpty dCreateW =
      .ok { sEmpty with topics := sEmpty.topics ++ [topicOfCreate dCreateW] } ∧
    (topicOfCreate dCreateW).hasContent = false ∧
    SQLiteAdapter.update_topic sContent "t" dUpdW =
      .ok { sContent with topics := sContent.topics.map (fun u =>
        if u.urlSlug == "t" then applyTopicUpdate u dUpdW (updatedHasContent dUpdW tContentW)
        else u) } ∧
    (applyTopicUpdate tContentW dUpdW (updatedHasContent dUpdW tContentW)).hasContent = true :=
  ⟨((hasContent_recomputed sEmpty).1 dCreateW (by decide)).1, by decide,
   ((hasContent_recomputed sContent).2 "t" dUpdW tContentW (by decide)).1, by decide⟩

/-- C9: creating a graph with a `copyFromGraphId` fails `GRAPH_NOT_FOUND`
when the source graph is absent; otherwise, for a fresh new id, the new
graph row is stored with `isDefault = false` and `isReadonly = false`
(whatever the source's flags) and the new graph's courses, topics
(including `parentSlugs`) and edges equal the source's verbatim. -/
theorem copy_graph_spec (db : DB) (newId name : String) (desc : Option String)
    (src : String)
    (hname : ¬pyStrip name = "")
    (hfg : ∀ g ∈ db.graphs, g.id ≠ newId)
    (hfc : ∀ r ∈ db.courses, r.1 ≠ newId)
    (hft : ∀ r ∈ db.topics, r.1 ≠ newId)
    (hfe : ∀ r ∈ db.edges, r.1 ≠ newId) :
    (SQLiteAdapter.get_graph db src = none →
      routes.create_graph db newId ⟨name, desc, some src⟩ = .error .GRAPH_NOT_FOUND) ∧
    ((SQLiteAdapter.get_graph db src).isSome →
      routes.create_graph db newId ⟨name, desc, some src⟩ =
        .ok (SQLiteAdapter.create_graph db newId ⟨name, desc, some src⟩) ∧
      SQLiteAdapter.get_graph (SQLiteAdapter.create_graph db newId ⟨name, desc, some src⟩)
        newId = some ⟨newId, name, desc, false, false, some src⟩ ∧
      coursesOf (SQLiteAdapter.create_graph db newId ⟨name, desc, some src⟩) newId =
        coursesOf db src ∧
      topicsOf (SQLiteAdapter.create_graph db newId ⟨name, desc, some src⟩) newId =
        topicsOf db src ∧
      edgesOf (SQLiteAdapter.create_graph db newId ⟨name, desc, some src⟩) newId =
        edgesOf db src) := by
  constructor
  · intro hsrc
    simp [routes.create_graph, hname, hsrc]
  · intro hsome
    obtain ⟨g, hg⟩ := Option.isSome_iff_exists.mp hsome
    refine ⟨?_, ?_, ?_, ?_, ?_⟩
    · simp [routes.create_graph, hname, hg]
    · show (db.graphs ++ [(⟨newId, name, desc, false, false, some src⟩ : GraphMeta)]).find?
        (fun x => x.id == newId) = some ⟨newId, name, desc, false, false, some src⟩
      rw [List.find?_append]
      have h1 : db.graphs.find? (fun x => x.id == newId) = none :=
        List.find?_eq_none.mpr (fun x hx => by simp [hfg x hx])
      rw [h1]
      simp
    · show ((db.courses ++ (db.courses.filter (fun r => r.1 == src)).map
          (fun r => (newId, r.2))).filter (fun r => r.1 == newId)).map (fun r => r.2) =
        coursesOf db src
      rw [List.filter_append]
      have hempty : db.courses.filter (fun r => r.1 == newId) = [] :=
        List.filter_eq_nil_iff.mpr (fun r hr => by simp [hfc r hr])
      have hall : ((db.courses.filter (fun r => r.1 == src)).map
          (fun r => (newId, r.2))).filter (fun r => r.1 == newId) =
          (db.courses.filter (fun r => r.1 == src)).map (fun r => (newId, r.2)) :=
        List.filter_eq_self.mpr (fun r hr => by
          obtain ⟨r0, hr0, rfl⟩ := List.mem_map.mp hr
          simp)
      rw [hempty, hall, List.nil_append, List.map_map]
      exact List.map_congr_left (fun a _ => rfl)
    · show ((db.topics ++ (db.topics.filter (fun r => r.1 == src)).map
          (fun r => (newId, r.2))).filter (fun r => r.1 == newId)).map (fun r => r.2) =
        topicsOf db src
      rw [List.filter_append]
      have hempty : db.topics.filter (fun r => r.1 == newId) = [] :=
        List.filter_eq_nil_iff.mpr (fun r hr => by simp [hft r hr])
      have hall : ((db.topics.filter (fun r => r.1 == src)).map
          (fun r => (newId, r.2))).filter (fun r => r.1 == newId) =
          (db.topics.filter (fun r => r.1 == src)).map (fun r => (newId, r.2)) :=
        List.filter_eq_self.mpr (fun r hr => by
          obtain ⟨r0, hr0, rfl⟩ := List.mem_map.mp hr
          simp)
      rw [hempty, hall, List.nil_append, List.map_map]
      exact List.map_congr_left (fun a _ => rfl)
    · show ((db.edges ++ (db.edges.filter (fun r => r.1 == src)).map
          (fun r => (newId, r.2))).filter (fun r => r.1 == newId)).map (fun r => r.2) =
        edgesOf db src
      rw [List.filter_append]
      have hempty : db.edges.filter (fun r => r.1 == newId) = [] :=
        List.filter_eq_nil_iff.mpr (fun r hr => by simp [hfe r hr])
      have hall : ((db.edges.filter (fun r => r.1 == src)).map
          (fun r => (newId, r.2))).filter (fun r => r.1 == newId) =
          (db.edges.filter (fun r => r.1 == src)).map (fun r => (newId, r.2)) :=
        List.filter_eq_self.mpr (fun r hr => by
          obtain ⟨r0, hr0, rfl⟩ := List.mem_map.mp hr
          simp)
      rw [hempty, hall, List.nil_append, List.map_map]
      exact List.map_congr_left (fun a _ => rfl)

theorem copy_graph_spec_witness :
    routes.create_graph dbCopy "new" ⟨"Copy", none, some "src"⟩ =
      .ok (SQLiteAdapter.create_graph dbCopy "new" ⟨"Copy", none, some "src"⟩) ∧
    SQLiteAdapter.get_graph (SQLiteAdapter.create_graph dbCopy "new" ⟨"Copy", none, some "src"⟩)
      "new" = some ⟨"new", "Copy", none, false, false, some "src"⟩ ∧
    coursesOf (SQLiteAdapter.create_graph dbCopy "new" ⟨"Copy", none, some "src"⟩) "new" =
      coursesOf dbCopy "src" ∧
    topicsOf (SQLiteAdapter.create_graph dbCopy "new" ⟨"Copy", none, some "src"⟩) "new" =
      topicsOf dbCopy "src" ∧
    edgesOf (SQLiteAdapter.create_graph dbCopy "new" ⟨"Copy", none, some "src"⟩) "new" =
      edgesOf dbCopy "src" :=
  (copy_graph_spec dbCopy "new" "Copy" none "src" (by decide) (by decide) (by decide)
    (by decide) (by decide)).2 (by decide)

/-- C10: a batch whose delete lists name an absent edge, topic and course
raises nothing, leaves the store unchanged, and still reports one success
in each deleted-count — the adapter deletes perform no existence check. -/
theorem batch_delete_absent_counts (s : GraphState) (p c slug : String) (cid : Nat)
    (he : SQLiteAdapter.get_edge s p c = none)
    (hpc : ∀ t ∈ s.topics, t.urlSlug = c → p ∉ t.parentSlugs)
    (ht : SQLiteAdapter.get_topic s slug = none)
    (hts : ∀ t ∈ s.topics, slug ∉ t.parentSlugs)
    (hes : ∀ e ∈ s.edges, e.parentSlug ≠ slug ∧ e.childSlug ≠ slug)
    (hc : SQLiteAdapter.get_course s cid = none) :
    SQLiteAdapter.batch_update s
      ⟨some ⟨none, none, some [cid]⟩, some ⟨none, none, some [slug]⟩,
       some ⟨none, some [⟨p, c⟩]⟩⟩ =
      (s, { SQLiteAdapter.zeroResult with
            coursesDeleted := 1, topicsDeleted := 1, edgesDeleted := 1 }) := by
  have h1 := delete_edge_absent he hpc
  have h2 := delete_topic_absent ht hts hes
  have h3 := delete_course_absent hc
  simp [SQLiteAdapter.batch_update, SQLiteAdapter.runItems, SQLiteAdapter.edgeDeletes,
    SQLiteAdapter.topicDeletes, SQLiteAdapter.courseDeletes, SQLiteAdapter.courseCreates,
    SQLiteAdapter.topicCreates, SQLiteAdapter.edgeCreates, SQLiteAdapter.courseUpdates,
    SQLiteAdapter.topicUpdates, h1, h2, h3, SQLiteAdapter.zeroResult]

theorem batch_delete_absent_counts_witness :
    SQLiteAdapter.batch_update sEmpty opsAbsentDel =
      (sEmpty, { SQLiteAdapter.zeroResult with
                 coursesDeleted := 1, topicsDeleted := 1, edgesDeleted := 1 }) :=
  batch_delete_absent_counts sEmpty "p" "q" "x" 5 (by decide) (by decide) (by decide)
    (by decide) (by decide) (by decide)

end GraphParser

